import Mathlib

/-!
# The JOS kernel monitor (`kern/monitor.c`)

A shallow embedding of the command-line kernel monitor: the address parser
`read_addr`, the in-place tokenizer and the dispatcher of `runcmd`, the six
commands and the loop of `monitor`, followed by the properties proved about
them.

Conventions of the embedding

* A C string is the list of the characters stored before its terminating NUL
  (`CStr`); each `Char` stands for one `char`.
* `uint32_t` values are natural numbers, every arithmetic result being reduced
  modulo `2 ^ 32`.
* `cprintf` is not interpreted: the console output is the list of the calls
  made, each with its format string and its argument values.
-/

namespace JOS

/-! ## Console output -/

/-- A C string: the characters stored before the terminating NUL. -/
abbrev CStr := List Char

/-- One argument value handed to `cprintf`. -/
inductive Arg where
  | num (n : Nat)
  | str (s : CStr)
deriving DecidableEq, Repr

/-- One call of `cprintf`: the format string and the argument values. -/
structure Print where
  fmt : String
  args : List Arg
deriving DecidableEq, Repr

/-- The part of the machine state the monitor acts on: the console output so
far, oldest call first, and the memory, as the 32-bit word stored at each
address. -/
structure Kernel where
  out : List Print
  mem : Nat → Nat

/-- The call `cprintf(fmt, args...)`: appends the call to the console output. -/
def cprintf (fmt : String) (args : List Arg) (k : Kernel) : Kernel :=
  { k with out := k.out ++ [⟨fmt, args⟩] }

/-- The saved register state handed to every command; the monitor only passes
it on. -/
abbrev Trapframe := Nat

/-! ## `read_addr` -/

/-- The local `msg` of `read_addr`. -/
def read_addr_msg : CStr :=
  "Support only addresses represented in Lowercase Hex or Decimal\n".toList

/-- The `while (*str)` loop of `read_addr`: `ret` is the accumulator, the list is
what `str` points to. The result is the returned value, the final `*success`
and the console. -/
def read_addr_loop (base : Nat) : CStr → Nat → Kernel → Nat × Bool × Kernel
  | [], ret, k => (ret, true, k)
  | c :: str, ret, k =>
    let ret := (ret * base) % 2 ^ 32
    if 'a'.toNat ≤ c.toNat ∧ c.toNat ≤ 'z'.toNat then
      if base = 16 then
        read_addr_loop base str ((ret + (c.toNat - 'a'.toNat + 10)) % 2 ^ 32) k
      else
        (0, false, cprintf "%s" [.str read_addr_msg] k)
    else if '0'.toNat ≤ c.toNat ∧ c.toNat ≤ '9'.toNat then
      read_addr_loop base str ((ret + (c.toNat - '0'.toNat)) % 2 ^ 32) k
    else
      (0, false, cprintf "%s" [.str read_addr_msg] k)

/-- The function `read_addr(str, &success)`: the returned value, the final
`*success` and the console. -/
def read_addr (str : CStr) (k : Kernel) : Nat × Bool × Kernel :=
  match str with
  | '0' :: 'x' :: rest => read_addr_loop 16 rest 0 k
  | _ => read_addr_loop 10 str 0 k

/-! ### What the specification says about address tokens -/

/-- A decimal digit `0`-`9`. -/
def isDecDigit (c : Char) : Bool := decide ('0'.toNat ≤ c.toNat ∧ c.toNat ≤ '9'.toNat)

/-- A lowercase letter `a`-`z`. -/
def isLowerLetter (c : Char) : Bool := decide ('a'.toNat ≤ c.toNat ∧ c.toNat ≤ 'z'.toNat)

/-- An uppercase letter `A`-`Z`. -/
def isUpperLetter (c : Char) : Bool := decide ('A'.toNat ≤ c.toNat ∧ c.toNat ≤ 'Z'.toNat)

/-- A digit of the given mode: `0`-`9`, and in hex mode also `a`-`f`. -/
def isDigitOf (hex : Bool) (c : Char) : Bool :=
  isDecDigit c || (hex && decide ('a'.toNat ≤ c.toNat ∧ c.toNat ≤ 'f'.toNat))

/-- The value of one digit: `0`-`9` are 0-9, `a`-`f` are 10-15. -/
def digitValue (c : Char) : Nat :=
  if isDecDigit c then c.toNat - '0'.toNat else c.toNat - 'a'.toNat + 10

/-- The number a digit string denotes in the given base, most significant digit
first. -/
def numericValue (base : Nat) (ds : CStr) : Nat :=
  Nat.ofDigits base (ds.reverse.map digitValue)

/-- The token begins with `0x`. -/
def hexTagged : CStr → Bool
  | '0' :: 'x' :: _ => true
  | _ => false

/-- The characters of the token after the optional `0x`. -/
def payload (tok : CStr) : CStr := if hexTagged tok then tok.drop 2 else tok

/-- A console on which nothing has been printed yet, over a memory of zeros. -/
def bootKernel : Kernel := { out := [], mem := fun _ => 0 }

/-! ## `runcmd` -/

/-- The functions registered in the command table; a table entry holds one of
these where the C table holds the function pointer. -/
inductive Handler where
  | mon_backtrace
  | mon_checkvm
  | mon_help
  | mon_kerninfo
  | mon_showmappings
  | mon_setperm
deriving DecidableEq, Repr

/-- The C type `struct Command`. -/
structure Command where
  name : CStr
  desc : CStr
  func : Handler
deriving DecidableEq, Repr

/-- The table `commands[]`. -/
def commands : List Command :=
  [ ⟨"backtrace".toList, "Display stack backtrace".toList, .mon_backtrace⟩,
    ⟨"checkvm".toList,
      "Dump memory contents within certain virtual address range".toList, .mon_checkvm⟩,
    ⟨"help".toList, "Display this list of commands".toList, .mon_help⟩,
    ⟨"kerninfo".toList, "Display information about the kernel".toList, .mon_kerninfo⟩,
    ⟨"showmappings".toList,
      "Display physical page mappings within certain range of virtual addresses".toList,
      .mon_showmappings⟩,
    ⟨"setperm".toList,
      "Set permission bit in page table entry for given virtual address".toList,
      .mon_setperm⟩ ]

/-- The NUL character, which terminates a C string. -/
def NUL : Char := Char.ofNat 0

/-- The string `WHITESPACE`. -/
def WHITESPACE : CStr := "\t\r\n ".toList

/-- The constant `MAXARGS`. -/
def MAXARGS : Nat := 16

/-- The test `strchr(s, c) != NULL` for a character `c` other than NUL (the
library function is not part of the sources; every call is guarded by
`*buf &&`). -/
def strchr (s : CStr) (c : Char) : Bool := decide (c ∈ s)

/-- The test `strcmp(a, b) == 0` (the library function is not part of the
sources): the two strings are equal. -/
def strcmp_eq (a b : CStr) : Bool := decide (a = b)

/-- The loop `while (*buf && strchr(WHITESPACE, *buf)) *buf++ = 0;`. The line
buffer is held as the bytes below `buf` as they are now stored (`done`) and
the bytes from `buf` to the terminating NUL (the list argument); the result
is the buffer in the same form when the loop exits. -/
def gobble (done : List Char) : List Char → List Char × List Char
  | [] => (done, [])
  | c :: rest =>
    if c ≠ NUL ∧ strchr WHITESPACE c = true then gobble (done ++ [NUL]) rest
    else (done, c :: rest)

/-- The loop `while (*buf && !strchr(WHITESPACE, *buf)) buf++;`, on the same
form of the buffer as `gobble`. -/
def scan_arg (done : List Char) : List Char → List Char × List Char
  | [] => (done, [])
  | c :: rest =>
    if c ≠ NUL ∧ ¬ strchr WHITESPACE c = true then scan_arg (done ++ [c]) rest
    else (done, c :: rest)

/-- How the parsing loop of `runcmd` ends. -/
inductive Parsed where
  /-- The `return 0` taken when a token is found while `argc == MAXARGS-1`. -/
  | too_many
  /-- The `break`: the final contents of the line buffer and `argv`, each
  pointer as its offset from the start of the buffer. -/
  | args (mem : List Char) (argv : List Nat)
deriving DecidableEq, Repr

/-- The loop `while (1)` of `runcmd`, one iteration per unit of fuel: `done`
and `rest` are the buffer below and from `buf`, `argv` the pointers saved so
far (`argc` is their number). -/
def parse_loop : Nat → List Char → List Char → List Nat → Option Parsed
  | 0, _, _, _ => none
  | fuel + 1, done, rest, argv =>
    match gobble done rest with
    | (done1, rest1) =>
      if rest1.headD NUL = NUL then some (.args (done1 ++ rest1) argv)
      else if argv.length = MAXARGS - 1 then some .too_many
      else
        match scan_arg done1 rest1 with
        | (done2, rest2) => parse_loop fuel done2 rest2 (argv ++ [done1.length])

/-- The first part of `runcmd`: parsing the command buffer into
whitespace-separated arguments. Every iteration that does not leave the loop
moves `buf` forward, so one more iteration than the line has characters is
all the loop can make. -/
def runcmd_parse (buf : CStr) : Option Parsed :=
  parse_loop (buf.length + 1) [] buf []

/-- The C string found at offset `p` of the buffer `mem`. -/
def string_at (mem : List Char) (p : Nat) : CStr :=
  (mem.drop p).takeWhile (fun c => decide (c ≠ NUL))

/-- The loop `for (i = 0; i < NCOMMANDS; i++)` of `runcmd` over the entries not
yet tried, and the statements after it. `invoke` is the call through the
function pointer of an entry. -/
def runcmd_lookup (invoke : Handler → Nat → List CStr → Trapframe → Kernel → Option (Int × Kernel))
    (argc : Nat) (argv : List CStr) (tf : Trapframe) (k : Kernel) :
    List Command → Option (Int × Kernel)
  | [] => some (0, cprintf "Unknown command '%s'\n" [.str (argv.headD [])] k)
  | cmd :: cmds =>
    if strcmp_eq (argv.headD []) cmd.name = true then invoke cmd.func argc argv tf k
    else runcmd_lookup invoke argc argv tf k cmds

/-- The function `runcmd(buf, tf)`: the returned value and the console, `none`
when a command that is invoked does not return. A command receives `argc`
and the strings `argv[0] .. argv[argc-1]`. -/
def runcmd (invoke : Handler → Nat → List CStr → Trapframe → Kernel → Option (Int × Kernel))
    (buf : CStr) (tf : Trapframe) (k : Kernel) : Option (Int × Kernel) :=
  match runcmd_parse buf with
  | none => none
  | some .too_many => some (0, cprintf "Too many arguments (max %d)\n" [.num MAXARGS] k)
  | some (.args mem ptrs) =>
    let argc := ptrs.length
    let argv := ptrs.map (string_at mem)
    if argc = 0 then some (0, k)
    else runcmd_lookup invoke argc argv tf k commands

/-! ### What the specification says about tokens -/

/-- Whitespace is any of space, tab, carriage return, newline. -/
def isWhitespace (c : Char) : Bool :=
  decide (c = ' ' ∨ c = '\t' ∨ c = '\r' ∨ c = '\n')

/-- The whitespace-separated tokens of a line: the maximal runs of
non-whitespace characters, in left-to-right order. -/
def whitespaceTokens (line : CStr) : List CStr :=
  (line.splitOnP isWhitespace).filter (fun t => !t.isEmpty)

/-- The line buffer once every whitespace character is overwritten by NUL. -/
def blank (l : List Char) : List Char := l.map (fun c => if isWhitespace c then NUL else c)

/-! ## `mon_showmappings` -/

/-- Modelled from the spec: the constant `PGSIZE` of `inc/mmu.h` (not part of
the sources), the page size by which the mapping dump steps. -/
def PGSIZE : Nat := 4096

/-- Modelled from the spec: the constant `PTE_P` of `inc/mmu.h` (not part of the
sources), the present bit of a page-table entry. -/
def PTE_P : Nat := 0x001

/-- Modelled from the spec: the constant `PTE_W` of `inc/mmu.h` (not part of the
sources), the writable bit of a page-table entry. -/
def PTE_W : Nat := 0x002

/-- Modelled from the spec: the constant `PTE_U` of `inc/mmu.h` (not part of the
sources), the user-accessible bit of a page-table entry. -/
def PTE_U : Nat := 0x004

/-- Modelled from the spec: the macro `PTE_ADDR` of `inc/mmu.h` (not part of the
sources), the physical-address field of a page-table entry: the entry with
the bits below the page size masked off. -/
def PTE_ADDR (pte : Nat) : Nat := pte &&& 0xFFFFF000

/-- The console after the given calls of `cprintf`, made in order. -/
def emit (ps : List Print) (k : Kernel) : Kernel := { k with out := k.out ++ ps }

/-- The loop `for (...; start_addr <= end_addr; start_addr += PGSIZE)` of
`mon_showmappings`, one test of the loop condition per unit of fuel; `none`
when the fuel runs out before the condition fails.

The page-table walk `pgdir_walk(kern_pgdir, va, create)` of `kern/pmap.c` is not
part of the sources and is a parameter: `pgdir_walk va create` is the value
`*pte` stored in the entry slot the walk returns, `none` when it returns NULL. -/
def showmappings_loop (pgdir_walk : Nat → Bool → Option Nat) :
    Nat → Nat → Nat → Kernel → Option Kernel
  | 0, _, _, _ => none
  | fuel + 1, start_addr, end_addr, k =>
    if start_addr ≤ end_addr then
      let k1 :=
        match pgdir_walk start_addr false with
        | none => cprintf "page mapping %x -> NULL\n" [.num start_addr] k
        | some pte =>
          cprintf "page mapping %x -> %x: PTE_P %x, PTE_W %x, PTE_U %x\n"
            [.num start_addr, .num (PTE_ADDR pte), .num (pte &&& PTE_P),
              .num (pte &&& PTE_W), .num (pte &&& PTE_U)] k
      showmappings_loop pgdir_walk fuel ((start_addr + PGSIZE) % 2 ^ 32) end_addr k1
    else some k

/-- The function `mon_showmappings(argc, argv, tf)`: the returned value and the
console, `none` when the loop does not end within the fuel. `argv` holds the
strings `argv[0] .. argv[argc-1]`. -/
def mon_showmappings (pgdir_walk : Nat → Bool → Option Nat) (fuel : Nat)
    (argc : Nat) (argv : List CStr) (_tf : Trapframe) (k : Kernel) : Option (Int × Kernel) :=
  if argc ≠ 3 then
    some (0, cprintf "Usage: showmappings start_addr end_addr\n" [] k)
  else
    match read_addr (argv.getD 1 []) k with
    | (start_addr, read_success, k1) =>
      if read_success = false then some (0, k1)
      else
        match read_addr (argv.getD 2 []) k1 with
        | (end_addr, read_success, k2) =>
          if read_success = false ∨ start_addr > end_addr then some (0, k2)
          else
            (showmappings_loop pgdir_walk fuel (start_addr &&& 0xFFFFF000) end_addr k2).map
              (fun k3 => (0, k3))

/-! ## `mon_setperm` -/

/-- The write `*p = v` of a 32-bit word. -/
def store (p v : Nat) (k : Kernel) : Kernel :=
  { k with mem := fun x => if x = p then v else k.mem x }

/-- The C expression `~x` on a `uint32_t`. -/
def not32 (x : Nat) : Nat := x ^^^ 0xFFFFFFFF

/-- The local `msg` of `mon_setperm`. -/
def setperm_msg : CStr := "Usage: setperm vaddr [0|1] [P|W|U]\n".toList

/-- The statement `switch (*argv[3])` of `mon_setperm`: the value of `perm` after
it (0 when no `case` assigns it) and the console. -/
def setperm_switch (arg3 : CStr) (k : Kernel) : Nat × Kernel :=
  if arg3.headD NUL = 'P' then (PTE_P, k)
  else if arg3.headD NUL = 'W' then (PTE_W, k)
  else if arg3.headD NUL = 'U' then (PTE_U, k)
  else (0, cprintf "Permission %s not supported\n" [.str arg3] k)

/-- The statement `if (*argv[2] == '1') ... else if (*argv[2] == '0') ... else ...`
of `mon_setperm`, `pte` being the address of the entry. -/
def setperm_update (arg2 : CStr) (perm pte : Nat) (k : Kernel) : Kernel :=
  if arg2.headD NUL = '1' then store pte (k.mem pte ||| perm) k
  else if arg2.headD NUL = '0' then store pte (k.mem pte &&& not32 perm) k
  else cprintf "%s" [.str setperm_msg] k

/-- The statements of `mon_setperm` from the `switch` to the last `cprintf`, `pte`
being the address of the entry the walk returned. -/
def setperm_body (argv : List CStr) (pte : Nat) (k2 : Kernel) : Kernel :=
  match setperm_switch (argv.getD 3 []) k2 with
  | (perm, k3) =>
    let k4 := cprintf "Permissions for %s:\nPTE_P %x, PTE_W %x, PTE_U %x ->\n"
      [.str (argv.getD 1 []), .num (k3.mem pte &&& PTE_P), .num (k3.mem pte &&& PTE_W),
        .num (k3.mem pte &&& PTE_U)] k3
    let k5 := setperm_update (argv.getD 2 []) perm pte k4
    cprintf "PTE_P %x, PTE_W %x, PTE_U %x\n"
      [.num (k5.mem pte &&& PTE_P), .num (k5.mem pte &&& PTE_W), .num (k5.mem pte &&& PTE_U)] k5

/-- The function `mon_setperm(argc, argv, tf)`: the returned value and the state
after it.

Modelled from the spec: the page-table walk in allocating mode,
`pgdir_walk(kern_pgdir, va, 1)` of `kern/pmap.c` (not part of the sources), is the
parameter `pgdir_walk`: it always yields an entry slot, given here by its
address, and may change the state by creating page-table structures. -/
def mon_setperm (pgdir_walk : Nat → Kernel → Nat × Kernel)
    (argc : Nat) (argv : List CStr) (_tf : Trapframe) (k : Kernel) : Option (Int × Kernel) :=
  if argc ≠ 4 then
    some (0, cprintf "%s" [.str setperm_msg] k)
  else
    match read_addr (argv.getD 1 []) k with
    | (addr, read_success, k1) =>
      if read_success = false then some (0, k1)
      else
        match pgdir_walk addr k1 with
        | (pte, k2) => some (0, setperm_body argv pte k2)

/-! ## `mon_checkvm` -/

/-- The loop `for (; start_addr <= end_addr; ++start_addr)` of `mon_checkvm`, one
test of the loop condition per unit of fuel; `none` when the fuel runs out
before the condition fails. The pointers are `void **`, so `++` adds 4. -/
def checkvm_loop : Nat → Nat → Nat → Kernel → Option Kernel
  | 0, _, _, _ => none
  | fuel + 1, start_addr, end_addr, k =>
    if start_addr ≤ end_addr then
      checkvm_loop fuel ((start_addr + 4) % 2 ^ 32) end_addr
        (cprintf "vaddr: %x, value: %x\n" [.num start_addr, .num (k.mem start_addr)] k)
    else some k

/-- The function `mon_checkvm(argc, argv, tf)`: the returned value and the state
after it, `none` when the loop does not end within the fuel. -/
def mon_checkvm (fuel : Nat) (argc : Nat) (argv : List CStr) (_tf : Trapframe) (k : Kernel) :
    Option (Int × Kernel) :=
  if argc ≠ 3 then
    some (0, cprintf "Usage: checkvm start_addr end_addr\n" [] k)
  else
    match read_addr (argv.getD 1 []) k with
    | (start_addr, read_success, k1) =>
      if read_success = false then some (0, k1)
      else
        match read_addr (argv.getD 2 []) k1 with
        | (end_addr, read_success, k2) =>
          if read_success = false then some (0, k2)
          else (checkvm_loop fuel start_addr end_addr k2).map (fun k3 => (0, k3))

/-! ## `mon_backtrace` -/

/-- The fields of `struct Eipdebuginfo` (`kern/kdebug.h`, not part of the sources)
that `mon_backtrace` prints. -/
structure Eipdebuginfo where
  eip_file : CStr
  eip_line : Nat
  eip_fn_name : CStr
  eip_fn_namelen : Nat
  eip_fn_addr : Nat
deriving DecidableEq, Repr

/-- The C expression `a - b` on `uint32_t` values. -/
def sub32 (a b : Nat) : Nat := (a + 2 ^ 32 - b % 2 ^ 32) % 2 ^ 32

/-- The word `*(p + i)` for an `int *p`: the word stored `4 * i` bytes above `p`. -/
def word_at (k : Kernel) (p i : Nat) : Nat := k.mem ((p + 4 * i) % 2 ^ 32)

/-- The loop `while (ebp)` of `mon_backtrace`, one test of the loop condition per
unit of fuel; `none` when the fuel runs out before `ebp` is null.

Modelled from the spec: the debug-symbol resolver `debuginfo_eip(eip, &info)` of
`kern/kdebug.c` (not part of the sources) is the parameter `debuginfo_eip`: `some`
of the information it stores when it returns 0, `none` when it fails. -/
def backtrace_loop (debuginfo_eip : Nat → Option Eipdebuginfo) :
    Nat → Nat → Kernel → Option Kernel
  | 0, _, _ => none
  | fuel + 1, ebp, k =>
    if ebp ≠ 0 then
      let eip := word_at k ebp 1
      let k1 := cprintf "  ebp %08x  eip %08x  args %08x %08x %08x %08x %08x\n"
        [.num ebp, .num eip, .num (word_at k ebp 2), .num (word_at k ebp 3),
          .num (word_at k ebp 4), .num (word_at k ebp 5)] k
      let k2 :=
        match debuginfo_eip eip with
        | some info =>
          cprintf "\t%s:%u: %.*s+%u\n"
            [.str info.eip_file, .num info.eip_line, .num info.eip_fn_namelen,
              .str info.eip_fn_name, .num (sub32 eip info.eip_fn_addr)] k1
        | none => k1
      backtrace_loop debuginfo_eip fuel (word_at k2 ebp 0) k2
    else some k

/-- The function `mon_backtrace(argc, argv, tf)`: the returned value and the state
after it, `none` when the loop does not end within the fuel. `read_ebp` is
the value of the frame-pointer register when the command runs. -/
def mon_backtrace (debuginfo_eip : Nat → Option Eipdebuginfo) (read_ebp : Nat) (fuel : Nat)
    (_argc : Nat) (_argv : List CStr) (_tf : Trapframe) (k : Kernel) : Option (Int × Kernel) :=
  (backtrace_loop debuginfo_eip fuel read_ebp k).map (fun k1 => (0, k1))

/-! ## `mon_help` and `mon_kerninfo` -/

/-- The loop `for (i = 0; i < NCOMMANDS; i++)` of `mon_help` over the entries not
yet printed. -/
def help_loop : List Command → Kernel → Kernel
  | [], k => k
  | cmd :: cmds, k => help_loop cmds (cprintf "%s - %s\n" [.str cmd.name, .str cmd.desc] k)

/-- The function `mon_help(argc, argv, tf)`. -/
def mon_help (_argc : Nat) (_argv : List CStr) (_tf : Trapframe) (k : Kernel) :
    Option (Int × Kernel) :=
  some (0, help_loop commands k)

/-- What the monitor calls or reads that is not part of the sources: the linker
symbols and the macros `mon_kerninfo` uses, the page-table walk in its two
modes, the debug-symbol resolver and the frame-pointer register. -/
structure Platform where
  sym_start : Nat
  sym_entry : Nat
  sym_etext : Nat
  sym_edata : Nat
  sym_end : Nat
  KERNBASE : Nat
  ROUNDUP : Nat → Nat → Nat
  walk_lookup : Nat → Bool → Option Nat
  walk_create : Nat → Kernel → Nat × Kernel
  debuginfo_eip : Nat → Option Eipdebuginfo
  read_ebp : Nat

/-- The function `mon_kerninfo(argc, argv, tf)`. -/
def mon_kerninfo (pf : Platform) (_argc : Nat) (_argv : List CStr) (_tf : Trapframe)
    (k : Kernel) : Option (Int × Kernel) :=
  let k1 := cprintf "Special kernel symbols:\n" [] k
  let k2 := cprintf "  _start                  %08x (phys)\n" [.num pf.sym_start] k1
  let k3 := cprintf "  entry  %08x (virt)  %08x (phys)\n"
    [.num pf.sym_entry, .num (sub32 pf.sym_entry pf.KERNBASE)] k2
  let k4 := cprintf "  etext  %08x (virt)  %08x (phys)\n"
    [.num pf.sym_etext, .num (sub32 pf.sym_etext pf.KERNBASE)] k3
  let k5 := cprintf "  edata  %08x (virt)  %08x (phys)\n"
    [.num pf.sym_edata, .num (sub32 pf.sym_edata pf.KERNBASE)] k4
  let k6 := cprintf "  end    %08x (virt)  %08x (phys)\n"
    [.num pf.sym_end, .num (sub32 pf.sym_end pf.KERNBASE)] k5
  some (0, cprintf "Kernel executable memory footprint: %dKB\n"
    [.num (pf.ROUNDUP (sub32 pf.sym_end pf.sym_entry) 1024 / 1024)] k6)

/-! ## The command table at run time and `monitor` -/

/-- The call `commands[i].func(argc, argv, tf)` through the function pointer of a
table entry, every loop being given `fuel` tests of its condition. -/
def call_command (pf : Platform) (fuel : Nat) :
    Handler → Nat → List CStr → Trapframe → Kernel → Option (Int × Kernel)
  | .mon_backtrace => mon_backtrace pf.debuginfo_eip pf.read_ebp fuel
  | .mon_checkvm => mon_checkvm fuel
  | .mon_help => mon_help
  | .mon_kerninfo => mon_kerninfo pf
  | .mon_showmappings => mon_showmappings pf.walk_lookup fuel
  | .mon_setperm => mon_setperm pf.walk_create

/-- Where a run of `monitor` stands once the lines typed so far are used up. -/
inductive MonitorRun where
  /-- The `break` was taken: `monitor` returns. -/
  | exited (k : Kernel)
  /-- The loop is in `readline`, waiting for the next line. -/
  | reading (k : Kernel)
  /-- A command that was invoked does not return. -/
  | hung

/-- The loop `while (1)` of `monitor` over the results of the successive calls of
`readline` (`none` for a NULL result; `readline` itself is not part of the
sources and its prompt is not recorded). -/
def monitor_loop (invoke : Handler → Nat → List CStr → Trapframe → Kernel → Option (Int × Kernel))
    (tf : Trapframe) : List (Option CStr) → Kernel → MonitorRun
  | [], k => .reading k
  | none :: lines, k => monitor_loop invoke tf lines k
  | some buf :: lines, k =>
    match runcmd invoke buf tf k with
    | none => .hung
    | some (r, k1) => if r < 0 then .exited k1 else monitor_loop invoke tf lines k1

/-- The function `monitor(tf)` run on the given results of `readline`. -/
def monitor (invoke : Handler → Nat → List CStr → Trapframe → Kernel → Option (Int × Kernel))
    (tf : Trapframe) (lines : List (Option CStr)) (k : Kernel) : MonitorRun :=
  monitor_loop invoke tf lines
    (cprintf "Type 'help' for a list of commands.\n" []
      (cprintf "Welcome to the JOS kernel monitor!\n" [] k))

/-! ### What the specification says about frame chains -/

/-- The frames reached from the frame pointer `ebp` by following the saved frame
pointers (the word at a frame pointer) are exactly the pointers of the list,
the link of the last one being the null pointer. -/
def frameChain (k : Kernel) : Nat → List Nat → Bool
  | ebp, [] => decide (ebp = 0)
  | ebp, f :: fs => decide (ebp = f) && decide (f ≠ 0) && frameChain k (word_at k f 0) fs

/-- What the unwinder prints for the frame at `f`: the frame line with the frame
pointer, the return address (the word one machine word above the frame
pointer) and the four words that follow it, then, when the resolver knows the
return address, the symbol line with file, line, function name and the offset
of the return address from the start of the function. -/
def frameReport (debuginfo_eip : Nat → Option Eipdebuginfo) (k : Kernel) (f : Nat) :
    List Print :=
  ⟨"  ebp %08x  eip %08x  args %08x %08x %08x %08x %08x\n",
      [.num f, .num (word_at k f 1), .num (word_at k f 2), .num (word_at k f 3),
        .num (word_at k f 4), .num (word_at k f 5)]⟩ ::
    match debuginfo_eip (word_at k f 1) with
    | some info =>
      [⟨"\t%s:%u: %.*s+%u\n",
        [.str info.eip_file, .num info.eip_line, .num info.eip_fn_namelen,
          .str info.eip_fn_name, .num (sub32 (word_at k f 1) info.eip_fn_addr)]⟩]
    | none => []

/-! ## Runs of the range commands cut short -/

/-- The loop of `mon_showmappings` stopped after at most `n` tests of its
condition: the statements of `showmappings_loop`, with the console as it
stands, instead of no result, when the tests are used up. -/
def showmappings_steps (pgdir_walk : Nat → Bool → Option Nat) :
    Nat → Nat → Nat → Kernel → Kernel
  | 0, _, _, k => k
  | n + 1, start_addr, end_addr, k =>
    if start_addr ≤ end_addr then
      let k1 :=
        match pgdir_walk start_addr false with
        | none => cprintf "page mapping %x -> NULL\n" [.num start_addr] k
        | some pte =>
          cprintf "page mapping %x -> %x: PTE_P %x, PTE_W %x, PTE_U %x\n"
            [.num start_addr, .num (PTE_ADDR pte), .num (pte &&& PTE_P),
              .num (pte &&& PTE_W), .num (pte &&& PTE_U)] k
      showmappings_steps pgdir_walk n ((start_addr + PGSIZE) % 2 ^ 32) end_addr k1
    else k

/-- The function `mon_showmappings(argc, argv, tf)` stopped after at most `n` tests
of the condition of its loop: the state reached by then. -/
def mon_showmappings_steps (pgdir_walk : Nat → Bool → Option Nat) (n : Nat)
    (argc : Nat) (argv : List CStr) (_tf : Trapframe) (k : Kernel) : Kernel :=
  if argc ≠ 3 then
    cprintf "Usage: showmappings start_addr end_addr\n" [] k
  else
    match read_addr (argv.getD 1 []) k with
    | (start_addr, read_success, k1) =>
      if read_success = false then k1
      else
        match read_addr (argv.getD 2 []) k1 with
        | (end_addr, read_success, k2) =>
          if read_success = false ∨ start_addr > end_addr then k2
          else showmappings_steps pgdir_walk n (start_addr &&& 0xFFFFF000) end_addr k2

/-- The loop of `mon_checkvm` stopped after at most `n` tests of its condition:
the statements of `checkvm_loop`, with the state as it stands, instead of no
result, when the tests are used up. -/
def checkvm_steps : Nat → Nat → Nat → Kernel → Kernel
  | 0, _, _, k => k
  | n + 1, start_addr, end_addr, k =>
    if start_addr ≤ end_addr then
      checkvm_steps n ((start_addr + 4) % 2 ^ 32) end_addr
        (cprintf "vaddr: %x, value: %x\n" [.num start_addr, .num (k.mem start_addr)] k)
    else k

/-- The function `mon_checkvm(argc, argv, tf)` stopped after at most `n` tests of
the condition of its loop: the state reached by then. -/
def mon_checkvm_steps (n : Nat) (argc : Nat) (argv : List CStr) (_tf : Trapframe)
    (k : Kernel) : Kernel :=
  if argc ≠ 3 then
    cprintf "Usage: checkvm start_addr end_addr\n" [] k
  else
    match read_addr (argv.getD 1 []) k with
    | (start_addr, read_success, k1) =>
      if read_success = false then k1
      else
        match read_addr (argv.getD 2 []) k1 with
        | (end_addr, read_success, k2) =>
          if read_success = false then k2
          else checkvm_steps n start_addr end_addr k2

/-! ### What the specification says about the addresses a range operation visits -/

/-- The address a printed line is about: its first numeric argument. -/
def lineAddress (p : Print) : Option Nat :=
  match p.args with
  | .num n :: _ => some n
  | _ => none

/-- The addresses visited by a range operation, in order: those its printed lines
are about. -/
def visited (ps : List Print) : List Nat := ps.filterMap lineAddress

/-! ### Example states -/

/-- A memory holding a chain of three frames, at 0x100, 0x200 and 0x300, with the
return addresses 0xf0100040, 0xf0100080 and 0xf01000c0; the last saved frame
pointer is null. -/
def exampleStack : Kernel :=
  store 0x100 0x200 (store 0x104 0xf0100040 (store 0x108 7
    (store 0x200 0x300 (store 0x204 0xf0100080
      (store 0x304 0xf01000c0 bootKernel)))))

/-- A resolver that knows one return address only. -/
def exampleResolver (eip : Nat) : Option Eipdebuginfo :=
  if eip = 0xf0100040 then
    some ⟨"kern/init.c".toList, 24, "i386_init".toList, 9, 0xf0100000⟩
  else none

/-- A platform with nothing mapped, where every entry slot is at 0x3000 and the
frame-pointer register is null. -/
def examplePlatform : Platform :=
  { sym_start := 0x10000c, sym_entry := 0xf010000c, sym_etext := 0xf0101a75,
    sym_edata := 0xf0112300, sym_end := 0xf0112960, KERNBASE := 0xF0000000,
    ROUNDUP := fun a n => (a + n - 1) / n * n,
    walk_lookup := fun _ _ => none,
    walk_create := fun _ k => (0x3000, k),
    debuginfo_eip := exampleResolver,
    read_ebp := 0 }

/-! # Properties -/

/-! ## `read_addr` -/

/-- The left-to-right positional accumulation over a digit string. -/
theorem foldl_digits (base : Nat) (ds : CStr) (acc : Nat) :
    ds.foldl (fun a c => a * base + digitValue c) acc
      = acc * base ^ ds.length + numericValue base ds := by
  induction ds generalizing acc with
  | nil => simp [numericValue]
  | cons c ds ih =>
    simp only [List.foldl_cons, ih, numericValue, List.reverse_cons, List.map_append,
      List.map_cons, List.map_nil, Nat.ofDigits_append, Nat.ofDigits_singleton,
      List.length_map, List.length_reverse, List.length_cons]
    ring

theorem wrap_step (r b d : Nat) :
    ((r % 2 ^ 32) * b % 2 ^ 32 + d) % 2 ^ 32 = (r * b + d) % 2 ^ 32 := by
  rw [Nat.add_mod, Nat.mod_mod, ← Nat.add_mod, Nat.add_mod (r * b), Nat.mul_mod r b]
  rw [Nat.add_mod (r % 2 ^ 32 * b), Nat.mul_mod (r % 2 ^ 32), Nat.mod_mod]

theorem read_addr_loop_digits (hex : Bool) (ds : CStr) (k : Kernel)
    (hd : ∀ c ∈ ds, isDigitOf hex c = true) (r : Nat) :
    read_addr_loop (if hex then 16 else 10) ds (r % 2 ^ 32) k
      = ((ds.foldl (fun a c => a * (if hex then 16 else 10) + digitValue c) r) % 2 ^ 32,
          true, k) := by
  induction ds generalizing r with
  | nil => simp [read_addr_loop]
  | cons c ds ih =>
    have hc := hd c (List.mem_cons_self _ _)
    have hds : ∀ c ∈ ds, isDigitOf hex c = true := fun x hx => hd x (List.mem_cons_of_mem _ hx)
    simp only [isDigitOf, isDecDigit, Bool.or_eq_true, Bool.and_eq_true, decide_eq_true_eq,
      Char.reduceToNat] at hc
    rw [read_addr_loop, List.foldl_cons, ← ih hds]
    simp only [Char.reduceToNat]
    rcases hc with hdec | ⟨hhex, hlet⟩
    · have h1 : ¬ (97 ≤ c.toNat ∧ c.toNat ≤ 122) := by omega
      have hv : digitValue c = c.toNat - 48 := by
        simp [digitValue, isDecDigit, hdec]
      rw [if_neg h1, if_pos hdec, hv]
      rw [wrap_step]
    · have h1 : (97 ≤ c.toNat ∧ c.toNat ≤ 122) := by omega
      have hv : digitValue c = c.toNat - 97 + 10 := by
        have : ¬ (48 ≤ c.toNat ∧ c.toNat ≤ 57) := by omega
        simp [digitValue, isDecDigit, this]
      subst hhex
      rw [if_pos h1, hv]
      simp only [if_true]
      rw [wrap_step]


theorem read_addr_eq_loop (tok : CStr) (k : Kernel) :
    read_addr tok k
      = read_addr_loop (if hexTagged tok then 16 else 10) (payload tok) 0 k := by
  unfold read_addr payload
  split
  · simp [hexTagged]
  · next h =>
    have : hexTagged tok = false := by
      unfold hexTagged
      split
      · next rest => exact absurd rfl (h rest)
      · rfl
    simp [this]

theorem read_addr_loop_invalid (base : Nat) (ds : CStr) (k : Kernel) (r : Nat)
    (h : ∃ c ∈ ds, isDecDigit c = false ∧ isLowerLetter c = false) :
    read_addr_loop base ds r k = (0, false, cprintf "%s" [.str read_addr_msg] k) := by
  induction ds generalizing r with
  | nil => simp at h
  | cons c ds ih =>
    rw [read_addr_loop]
    simp only [Char.reduceToNat]
    by_cases hl : 97 ≤ c.toNat ∧ c.toNat ≤ 122
    · rw [if_pos hl]
      split
      · apply ih
        obtain ⟨d, hd, h1, h2⟩ := h
        rcases List.mem_cons.1 hd with rfl | hd
        · simp [isLowerLetter, hl] at h2
        · exact ⟨d, hd, h1, h2⟩
      · rfl
    · rw [if_neg hl]
      by_cases hg : 48 ≤ c.toNat ∧ c.toNat ≤ 57
      · rw [if_pos hg]
        apply ih
        obtain ⟨d, hd, h1, h2⟩ := h
        rcases List.mem_cons.1 hd with rfl | hd
        · simp [isDecDigit, hg] at h1
        · exact ⟨d, hd, h1, h2⟩
      · rw [if_neg hg]

theorem read_addr_loop_decimal_invalid (ds : CStr) (k : Kernel) (r : Nat)
    (h : ∃ c ∈ ds, isDecDigit c = false) :
    read_addr_loop 10 ds r k = (0, false, cprintf "%s" [.str read_addr_msg] k) := by
  induction ds generalizing r with
  | nil => simp at h
  | cons c ds ih =>
    rw [read_addr_loop]
    simp only [Char.reduceToNat]
    by_cases hl : 97 ≤ c.toNat ∧ c.toNat ≤ 122
    · rw [if_pos hl]
      simp
    · rw [if_neg hl]
      by_cases hg : 48 ≤ c.toNat ∧ c.toNat ≤ 57
      · rw [if_pos hg]
        apply ih
        obtain ⟨d, hd, h1⟩ := h
        rcases List.mem_cons.1 hd with rfl | hd
        · simp [isDecDigit, hg] at h1
        · exact ⟨d, hd, h1⟩
      · rw [if_neg hg]


theorem read_addr_loop_lt (base : Nat) (ds : CStr) (k : Kernel) (r : Nat) (hr : r < 2 ^ 32) :
    (read_addr_loop base ds r k).1 < 2 ^ 32 := by
  induction ds generalizing r with
  | nil => simpa [read_addr_loop] using hr
  | cons c ds ih =>
    rw [read_addr_loop]
    split
    · split
      · exact ih _ (Nat.mod_lt _ (by norm_num))
      · norm_num
    · split
      · exact ih _ (Nat.mod_lt _ (by norm_num))
      · norm_num

theorem read_addr_lt (tok : CStr) (k : Kernel) : (read_addr tok k).1 < 2 ^ 32 := by
  rw [read_addr_eq_loop]
  exact read_addr_loop_lt _ _ k 0 (by norm_num)


/-- C1: a token made of a non-empty string of digits `0`-`9` (decimal mode), or of
`0x` followed by a non-empty string over `0`-`9` and `a`-`f` (hex mode), is read
with `success = true`, nothing printed, and the value the digits denote in
base 10 resp. base 16 reduced modulo `2 ^ 32`; and `read_addr("26") = 26`. -/
theorem read_addr_valid_token (hex : Bool) (ds : CStr) (k : Kernel)
    (hne : ds ≠ []) (hd : ∀ c ∈ ds, isDigitOf hex c = true) :
    read_addr ((if hex then ['0', 'x'] else []) ++ ds) k
        = (numericValue (if hex then 16 else 10) ds % 2 ^ 32, true, k)
      ∧ read_addr "26".toList k = (26, true, k) := by
  refine ⟨?_, rfl⟩
  have hloop := read_addr_loop_digits hex ds k hd 0
  rw [foldl_digits] at hloop
  simp only [Nat.zero_mod, Nat.zero_mul, Nat.zero_add] at hloop
  cases hex with
  | true => simpa [read_addr] using hloop
  | false =>
    have htag : hexTagged ds = false := by
      unfold hexTagged
      split
      · next rest =>
        have := hd 'x' (by simp)
        simp [isDigitOf, isDecDigit] at this
      · rfl
    rw [read_addr_eq_loop]
    simpa [payload, htag] using hloop

/-- The hex token `0xff09` is read as 0xff09, and the decimal token `4294967297`,
which is `2 ^ 32 + 1`, wraps around to 1. -/
theorem read_addr_valid_token_witness :
    read_addr "0xff09".toList bootKernel = (0xff09, true, bootKernel)
      ∧ read_addr "4294967297".toList bootKernel = (1, true, bootKernel) :=
  ⟨(read_addr_valid_token true "ff09".toList bootKernel (by decide) (by decide)).1,
   (read_addr_valid_token false "4294967297".toList bootKernel (by decide) (by decide)).1⟩

/-- C2: a token with a character other than `0`-`9` and `a`-`z` after the optional
`0x`, or with a letter when it does not begin with `0x`, makes `read_addr`
print its error message once, leave `success = false` and return 0. -/
theorem read_addr_invalid_char (tok : CStr) (k : Kernel)
    (h : (∃ c ∈ payload tok, isDecDigit c = false ∧ isLowerLetter c = false) ∨
         (hexTagged tok = false ∧
            ∃ c ∈ tok, isLowerLetter c = true ∨ isUpperLetter c = true)) :
    read_addr tok k = (0, false, cprintf "%s" [.str read_addr_msg] k) := by
  rw [read_addr_eq_loop]
  rcases h with h | ⟨htag, c, hc, hlet⟩
  · exact read_addr_loop_invalid _ _ k 0 h
  · simp only [payload, htag, Bool.false_eq_true, if_false]
    apply read_addr_loop_decimal_invalid
    refine ⟨c, hc, ?_⟩
    simp only [isLowerLetter, isUpperLetter, isDecDigit, Char.reduceToNat,
      decide_eq_true_eq, decide_eq_false_iff_not] at hlet ⊢
    omega

/-- The token `1a`, a letter without the `0x`, fails as C2 states. -/
theorem read_addr_invalid_char_witness :
    read_addr "1a".toList bootKernel = (0, false, cprintf "%s" [.str read_addr_msg] bootKernel) :=
  read_addr_invalid_char "1a".toList bootKernel (Or.inr ⟨by decide, 'a', by decide, by decide⟩)

/-- C3 fails on the code: it is not the case that `read_addr("0x1A")` succeeds and
returns 26. -/
theorem read_addr_upper_hex_counterexample :
    ¬ ((read_addr "0x1A".toList bootKernel).2.1 = true
        ∧ (read_addr "0x1A".toList bootKernel).1 = 26) := by
  decide

/-- C3, amended: `read_addr("0x1A")` fails, printing the error message, with
`success = false` and the value 0, the uppercase digit being invalid; the
lowercase token `0x1a` succeeds and returns 26. -/
theorem read_addr_upper_hex (k : Kernel) :
    read_addr "0x1A".toList k = (0, false, cprintf "%s" [.str read_addr_msg] k)
      ∧ read_addr "0x1a".toList k = (26, true, k) :=
  ⟨rfl, rfl⟩

/-- C4 fails on the code: in hex mode the letters `g`-`z` pass the test
`*str >= 'a' && *str <= 'z'` and are added as the digit values 16-35, so
`read_addr("0xz")` succeeds, prints nothing and returns 35. -/
theorem read_addr_hex_accepts_z (k : Kernel) :
    read_addr "0xz".toList k = (35, true, k) :=
  rfl

/-- C5 fails on the code: `read_addr("")` does not leave `success = false`. -/
theorem read_addr_empty_counterexample :
    ¬ ((read_addr [] bootKernel).2.1 = false) := by
  decide

/-- C5, amended: on the empty token the loop of `read_addr` is not entered, so it
succeeds: `success = true`, the value 0, nothing printed. -/
theorem read_addr_empty (k : Kernel) : read_addr [] k = (0, true, k) :=
  rfl


/-! ## The tokenizer and the dispatcher of `runcmd` -/

theorem strchr_WHITESPACE (c : Char) : strchr WHITESPACE c = isWhitespace c := by
  have hm : c ∈ WHITESPACE ↔ (c = ' ' ∨ c = '\t' ∨ c = '\r' ∨ c = '\n') := by
    show c ∈ ['\t', '\r', '\n', ' '] ↔ _
    simp only [List.mem_cons, List.mem_singleton, List.not_mem_nil, or_false]
    tauto
  simp only [strchr, isWhitespace, hm]

theorem gobble_eq (done rest : List Char) (h : NUL ∉ rest) :
    gobble done rest
      = (done ++ blank (rest.takeWhile isWhitespace), rest.dropWhile isWhitespace) := by
  induction rest generalizing done with
  | nil => simp [gobble, blank]
  | cons c rest ih =>
    have hc : c ≠ NUL := fun e => h (e ▸ List.mem_cons_self _ _)
    have hr : NUL ∉ rest := fun m => h (List.mem_cons_of_mem _ m)
    rw [gobble, strchr_WHITESPACE]
    by_cases hw : isWhitespace c = true
    · rw [if_pos ⟨hc, hw⟩, ih _ hr]
      simp [List.takeWhile_cons, List.dropWhile_cons, hw, blank]
    · rw [if_neg (fun x => hw x.2)]
      simp [List.takeWhile_cons, List.dropWhile_cons, hw, blank]

theorem scan_arg_eq (done rest : List Char) (h : NUL ∉ rest) :
    scan_arg done rest
      = (done ++ rest.takeWhile (fun c => !isWhitespace c),
          rest.dropWhile (fun c => !isWhitespace c)) := by
  induction rest generalizing done with
  | nil => simp [scan_arg]
  | cons c rest ih =>
    have hc : c ≠ NUL := fun e => h (e ▸ List.mem_cons_self _ _)
    have hr : NUL ∉ rest := fun m => h (List.mem_cons_of_mem _ m)
    rw [scan_arg, strchr_WHITESPACE]
    by_cases hw : isWhitespace c = true
    · rw [if_neg (fun x => x.2 hw)]
      simp [List.takeWhile_cons, List.dropWhile_cons, hw]
    · rw [if_pos ⟨hc, hw⟩, ih _ hr]
      simp [List.takeWhile_cons, List.dropWhile_cons, hw]

theorem whitespaceTokens_nil : whitespaceTokens [] = [] := by
  simp [whitespaceTokens]

theorem whitespaceTokens_cons_ws (c : Char) (l : CStr) (hw : isWhitespace c = true) :
    whitespaceTokens (c :: l) = whitespaceTokens l := by
  simp [whitespaceTokens, List.splitOnP_cons, hw]

theorem whitespaceTokens_dropWhile (l : CStr) :
    whitespaceTokens (l.dropWhile isWhitespace) = whitespaceTokens l := by
  induction l with
  | nil => rfl
  | cons c l ih =>
    by_cases hw : isWhitespace c = true
    · rw [List.dropWhile_cons_of_pos hw, ih, whitespaceTokens_cons_ws c l hw]
    · rw [List.dropWhile_cons_of_neg hw]

theorem splitOnP_run (l : CStr) :
    ∃ tl, l.splitOnP isWhitespace = l.takeWhile (fun c => !isWhitespace c) :: tl ∧
      tl.filter (fun t => !t.isEmpty)
        = whitespaceTokens (l.dropWhile (fun c => !isWhitespace c)) := by
  induction l with
  | nil => exact ⟨[], by simp, by simp [whitespaceTokens]⟩
  | cons c l ih =>
    obtain ⟨tl, h1, h2⟩ := ih
    by_cases hw : isWhitespace c = true
    · refine ⟨l.splitOnP isWhitespace, by simp [List.splitOnP_cons, hw], ?_⟩
      simp [hw, whitespaceTokens, List.splitOnP_cons]
    · refine ⟨tl, ?_, ?_⟩
      · simp [List.splitOnP_cons, hw, h1, List.modifyHead]
      · simpa [hw] using h2

theorem whitespaceTokens_run (l : CStr) (hne : l.takeWhile (fun c => !isWhitespace c) ≠ []) :
    whitespaceTokens l
      = l.takeWhile (fun c => !isWhitespace c)
          :: whitespaceTokens (l.dropWhile (fun c => !isWhitespace c)) := by
  obtain ⟨tl, h1, h2⟩ := splitOnP_run l
  rw [← h2]
  unfold whitespaceTokens
  rw [h1, List.filter_cons_of_pos]
  simpa [List.isEmpty_iff] using hne


theorem blank_append (a b : List Char) : blank (a ++ b) = blank a ++ blank b := by
  simp [blank]

theorem blank_of_no_ws (t : List Char) (h : ∀ c ∈ t, isWhitespace c = false) : blank t = t := by
  induction t with
  | nil => rfl
  | cons c t ih =>
    have hc := h c (List.mem_cons_self _ _)
    have ht := ih (fun x hx => h x (List.mem_cons_of_mem _ hx))
    simp only [blank, List.map_cons, hc] at ht ⊢
    simp [ht]

theorem string_at_append (a t b : List Char) (ht : NUL ∉ t) (hb : b.headD NUL = NUL) :
    string_at (a ++ (t ++ b)) a.length = t := by
  unfold string_at
  rw [List.drop_left]
  induction t with
  | nil =>
    cases b with
    | nil => rfl
    | cons c b =>
      simp only [List.headD_cons] at hb
      simp [List.takeWhile_cons, hb]
  | cons c t ih =>
    have hc : c ≠ NUL := fun e => ht (e ▸ List.mem_cons_self _ _)
    have hr : NUL ∉ t := fun m => ht (List.mem_cons_of_mem _ m)
    rw [List.cons_append, List.takeWhile_cons, if_pos (by simpa using hc), ih hr]

theorem headD_blank_dropWhile (l : List Char) :
    (blank (l.dropWhile (fun c => !isWhitespace c))).headD NUL = NUL := by
  cases h : l.dropWhile (fun c => !isWhitespace c) with
  | nil => rfl
  | cons c r =>
    have := List.head_dropWhile_not (fun c => !isWhitespace c) l (by simp [h])
    simp only [h, List.head_cons, Bool.not_eq_eq_eq_not, Bool.not_true, Bool.not_eq_false] at this
    simp [blank, this]

/-- One iteration of the parsing loop on a buffer that starts with a token. -/
theorem run_facts (rest : List Char) (c : Char) (r : List Char)
    (hr : rest.dropWhile isWhitespace = c :: r) :
    isWhitespace c = false ∧
    whitespaceTokens rest
      = (c :: r).takeWhile (fun c => !isWhitespace c)
          :: whitespaceTokens ((c :: r).dropWhile (fun c => !isWhitespace c)) ∧
    ((c :: r).dropWhile (fun c => !isWhitespace c)).length < rest.length := by
  have hc : isWhitespace c = false := by
    have := List.head_dropWhile_not isWhitespace rest (by simp [hr])
    simpa [hr] using this
  refine ⟨hc, ?_, ?_⟩
  · rw [← whitespaceTokens_dropWhile rest, hr]
    apply whitespaceTokens_run
    simp [List.takeWhile_cons, hc]
  · have h1 : (rest.dropWhile isWhitespace).length ≤ rest.length :=
      (List.dropWhile_sublist _).length_le
    rw [hr] at h1
    have h2 : (r.dropWhile (fun c => !isWhitespace c)).length ≤ r.length :=
      (List.dropWhile_sublist _).length_le
    simp only [List.dropWhile_cons, hc, Bool.not_false, if_true]
    simp only [List.length_cons] at h1
    omega

theorem parse_loop_args (fuel : Nat) : ∀ (done rest : List Char) (argv : List Nat),
    NUL ∉ rest → rest.length < fuel →
    argv.length + (whitespaceTokens rest).length ≤ MAXARGS - 1 →
    ∃ ptrs, parse_loop fuel done rest argv
        = some (.args (done ++ blank rest) (argv ++ ptrs)) ∧
      ptrs.map (string_at (done ++ blank rest)) = whitespaceTokens rest := by
  induction fuel with
  | zero => intro _ _ _ _ h; omega
  | succ fuel ih =>
    intro done rest argv hnul hlen hlim
    rw [parse_loop, gobble_eq done rest hnul]
    have hsplit := List.takeWhile_append_dropWhile isWhitespace rest
    have hblank : blank rest
        = blank (rest.takeWhile isWhitespace) ++ blank (rest.dropWhile isWhitespace) := by
      rw [← blank_append, hsplit]
    have hnul1 : NUL ∉ rest.dropWhile isWhitespace :=
      fun m => hnul ((List.dropWhile_sublist _).mem m)
    cases hr : rest.dropWhile isWhitespace with
    | nil =>
      refine ⟨[], ?_, ?_⟩
      · have hb2 : blank rest = blank (rest.takeWhile isWhitespace) := by
          rw [hblank, hr]; simp [blank]
        rw [hb2]; simp
      · rw [← whitespaceTokens_dropWhile rest, hr]; rfl
    | cons c r =>
      obtain ⟨hc, htok, hshort⟩ := run_facts rest c r hr
      rw [hr] at hnul1
      have hcn : c ≠ NUL := fun e => hnul1 (e ▸ List.mem_cons_self _ _)
      rw [htok] at hlim
      simp only [List.length_cons] at hlim
      have hargc : ¬ argv.length = MAXARGS - 1 := by omega
      simp only [List.headD_cons, hcn, if_false, hargc]
      rw [scan_arg_eq _ _ hnul1]
      simp only []
      have hnul2 : NUL ∉ (c :: r).dropWhile (fun c => !isWhitespace c) :=
        fun m => hnul1 ((List.dropWhile_sublist _).mem m)
      obtain ⟨ptrs, hrun, hstr⟩ := ih
        (done ++ blank (rest.takeWhile isWhitespace)
          ++ (c :: r).takeWhile (fun c => !isWhitespace c))
        ((c :: r).dropWhile (fun c => !isWhitespace c))
        (argv ++ [(done ++ blank (rest.takeWhile isWhitespace)).length])
        hnul2 (by omega) (by simp only [List.length_append, List.length_singleton]; omega)
      have hmem : done ++ blank (rest.takeWhile isWhitespace)
            ++ (c :: r).takeWhile (fun c => !isWhitespace c)
            ++ blank ((c :: r).dropWhile (fun c => !isWhitespace c))
          = done ++ blank rest := by
        rw [hblank, hr]
        conv_rhs => rw [← List.takeWhile_append_dropWhile (fun c => !isWhitespace c) (c :: r)]
        rw [blank_append, blank_of_no_ws ((c :: r).takeWhile (fun c => !isWhitespace c))]
        · simp only [List.append_assoc]
        · intro x hx
          simpa using List.mem_takeWhile_imp hx
      rw [hmem] at hrun hstr
      refine ⟨(done ++ blank (rest.takeWhile isWhitespace)).length :: ptrs, ?_, ?_⟩
      · rw [hrun]; simp
      · rw [List.map_cons, hstr, htok]
        congr 1
        rw [← hmem, List.append_assoc]
        apply string_at_append
        · exact fun m => hnul1 ((List.takeWhile_sublist _).mem m)
        · exact headD_blank_dropWhile _

theorem parse_loop_too_many (fuel : Nat) : ∀ (done rest : List Char) (argv : List Nat),
    NUL ∉ rest → rest.length < fuel → argv.length ≤ MAXARGS - 1 →
    MAXARGS - 1 < argv.length + (whitespaceTokens rest).length →
    parse_loop fuel done rest argv = some .too_many := by
  induction fuel with
  | zero => intro _ _ _ _ h; omega
  | succ fuel ih =>
    intro done rest argv hnul hlen hargv hlim
    rw [parse_loop, gobble_eq done rest hnul]
    have hnul1 : NUL ∉ rest.dropWhile isWhitespace :=
      fun m => hnul ((List.dropWhile_sublist _).mem m)
    cases hr : rest.dropWhile isWhitespace with
    | nil =>
      rw [← whitespaceTokens_dropWhile rest, hr, whitespaceTokens_nil] at hlim
      simp only [List.length_nil] at hlim
      omega
    | cons c r =>
      obtain ⟨hc, htok, hshort⟩ := run_facts rest c r hr
      rw [hr] at hnul1
      have hcn : c ≠ NUL := fun e => hnul1 (e ▸ List.mem_cons_self _ _)
      rw [htok] at hlim
      simp only [List.length_cons] at hlim
      simp only [List.headD_cons, hcn, if_false]
      by_cases hargc : argv.length = MAXARGS - 1
      · rw [if_pos hargc]
      · rw [if_neg hargc, scan_arg_eq _ _ hnul1]
        simp only []
        have hnul2 : NUL ∉ (c :: r).dropWhile (fun c => !isWhitespace c) :=
          fun m => hnul1 ((List.dropWhile_sublist _).mem m)
        apply ih _ _ _ hnul2 (by omega)
        · simp only [List.length_append, List.length_singleton]; omega
        · simp only [List.length_append, List.length_singleton]; omega


theorem whitespaceTokens_clean (n : Nat) : ∀ l : CStr, l.length ≤ n →
    ∀ t ∈ whitespaceTokens l, t ≠ [] ∧ ∀ c ∈ t, isWhitespace c = false := by
  induction n with
  | zero =>
    intro l hl t ht
    have : l = [] := List.length_eq_zero.1 (by omega)
    subst this
    simp [whitespaceTokens_nil] at ht
  | succ n ih =>
    intro l hl t ht
    cases hr : l.dropWhile isWhitespace with
    | nil =>
      rw [← whitespaceTokens_dropWhile l, hr, whitespaceTokens_nil] at ht
      simp at ht
    | cons c r =>
      obtain ⟨hc, htok, hshort⟩ := run_facts l c r hr
      rw [htok] at ht
      rcases List.mem_cons.1 ht with rfl | ht
      · refine ⟨by simp [List.takeWhile_cons, hc], ?_⟩
        intro x hx
        simpa using List.mem_takeWhile_imp hx
      · exact ih _ (by omega) t ht

theorem whitespaceTokens_all_ws (l : CStr) (h : ∀ c ∈ l, isWhitespace c = true) :
    whitespaceTokens l = [] := by
  induction l with
  | nil => exact whitespaceTokens_nil
  | cons c l ih =>
    rw [whitespaceTokens_cons_ws c l (h c (List.mem_cons_self _ _))]
    exact ih (fun x hx => h x (List.mem_cons_of_mem _ hx))

theorem runcmd_parse_args (line : CStr) (hnul : NUL ∉ line)
    (hlim : (whitespaceTokens line).length ≤ MAXARGS - 1) :
    ∃ mem ptrs, runcmd_parse line = some (.args mem ptrs) ∧
      ptrs.map (string_at mem) = whitespaceTokens line := by
  obtain ⟨ptrs, h1, h2⟩ := parse_loop_args (line.length + 1) [] line [] hnul (by omega)
    (by simpa using hlim)
  exact ⟨_, _, h1, h2⟩

theorem runcmd_parse_too_many (line : CStr) (hnul : NUL ∉ line)
    (hmany : MAXARGS - 1 < (whitespaceTokens line).length) :
    runcmd_parse line = some .too_many :=
  parse_loop_too_many (line.length + 1) [] line [] hnul (by omega) (by simp)
    (by simpa using hmany)

/-- C6: for a line (a C string, so without NUL) whose whitespace-separated tokens
are no more than the `MAXARGS - 1` the loop accepts, the parsing loop of
`runcmd` ends by its `break`, and the strings its `argv` points to are exactly
the maximal runs of non-whitespace characters of the line, in order; each is
non-empty and free of whitespace, and a line of whitespace only (or of length
zero) has none. -/
theorem tokenizer_maximal_runs (line : CStr) (hnul : NUL ∉ line)
    (hlim : (whitespaceTokens line).length ≤ MAXARGS - 1) :
    (∃ mem ptrs, runcmd_parse line = some (.args mem ptrs) ∧
        ptrs.map (string_at mem) = whitespaceTokens line) ∧
    (∀ t ∈ whitespaceTokens line, t ≠ [] ∧ ∀ c ∈ t, isWhitespace c = false) ∧
    ((∀ c ∈ line, isWhitespace c = true) → whitespaceTokens line = []) ∧
    whitespaceTokens "  showmappings  0x1000 0x2000 ".toList
      = ["showmappings".toList, "0x1000".toList, "0x2000".toList] :=
  ⟨runcmd_parse_args line hnul hlim, whitespaceTokens_clean _ line le_rfl,
    whitespaceTokens_all_ws line, by decide⟩

/-- The line `"  showmappings  0x1000 0x2000 "` yields the three tokens
`showmappings`, `0x1000`, `0x2000`. -/
theorem tokenizer_maximal_runs_witness :
    (∃ mem ptrs, runcmd_parse "  showmappings  0x1000 0x2000 ".toList = some (.args mem ptrs) ∧
        ptrs.map (string_at mem) = whitespaceTokens "  showmappings  0x1000 0x2000 ".toList) ∧
    (∀ t ∈ whitespaceTokens "  showmappings  0x1000 0x2000 ".toList,
        t ≠ [] ∧ ∀ c ∈ t, isWhitespace c = false) ∧
    ((∀ c ∈ "  showmappings  0x1000 0x2000 ".toList, isWhitespace c = true) →
        whitespaceTokens "  showmappings  0x1000 0x2000 ".toList = []) ∧
    whitespaceTokens "  showmappings  0x1000 0x2000 ".toList
      = ["showmappings".toList, "0x1000".toList, "0x2000".toList] :=
  tokenizer_maximal_runs "  showmappings  0x1000 0x2000 ".toList (by decide) (by decide)

/-- C7: on a line with more than 16 whitespace-separated tokens `runcmd` prints
the too-many-arguments message and returns 0, whatever the commands would
do: no command is invoked, even when the first token is a registered name. -/
theorem runcmd_too_many_arguments
    (invoke : Handler → Nat → List CStr → Trapframe → Kernel → Option (Int × Kernel))
    (line : CStr) (tf : Trapframe) (k : Kernel) (hnul : NUL ∉ line)
    (hmany : 16 < (whitespaceTokens line).length) :
    runcmd invoke line tf k
      = some (0, cprintf "Too many arguments (max %d)\n" [.num 16] k) := by
  unfold runcmd
  rw [runcmd_parse_too_many line hnul (by simp only [MAXARGS]; omega)]
  rfl

/-- A line of 17 tokens that starts with `help`, with commands that never return:
`runcmd` still prints the message and returns 0. -/
theorem runcmd_too_many_arguments_witness :
    runcmd (fun _ _ _ _ _ => none) "help 2 3 4 5 6 7 8 9 10 11 12 13 14 15 16 17".toList 0
        bootKernel
      = some (0, cprintf "Too many arguments (max %d)\n" [.num 16] bootKernel) :=
  runcmd_too_many_arguments _ _ 0 bootKernel (by decide) (by decide)

/-- C8 fails on the code: a line of exactly 16 tokens is refused. The test
`argc == MAXARGS-1` stops the loop at the sixteenth token, so `runcmd` prints
`Too many arguments (max 16)` and returns 0 without a lookup. -/
theorem runcmd_sixteen_tokens_rejected
    (invoke : Handler → Nat → List CStr → Trapframe → Kernel → Option (Int × Kernel))
    (tf : Trapframe) (k : Kernel) :
    (whitespaceTokens "help 2 3 4 5 6 7 8 9 10 11 12 13 14 15 16".toList).length = 16 ∧
    runcmd invoke "help 2 3 4 5 6 7 8 9 10 11 12 13 14 15 16".toList tf k
      = some (0, cprintf "Too many arguments (max %d)\n" [.num 16] k) :=
  ⟨by decide, rfl⟩

theorem runcmd_eq_lookup
    (invoke : Handler → Nat → List CStr → Trapframe → Kernel → Option (Int × Kernel))
    (line : CStr) (tf : Trapframe) (k : Kernel) (hnul : NUL ∉ line)
    (hlim : (whitespaceTokens line).length ≤ MAXARGS - 1) :
    runcmd invoke line tf k
      = if (whitespaceTokens line).length = 0 then some (0, k)
        else runcmd_lookup invoke (whitespaceTokens line).length (whitespaceTokens line)
          tf k commands := by
  obtain ⟨mem, ptrs, h1, h2⟩ := runcmd_parse_args line hnul hlim
  unfold runcmd
  rw [h1]
  simp only [h2]
  rw [← h2, List.length_map]

theorem runcmd_lookup_hit
    (invoke : Handler → Nat → List CStr → Trapframe → Kernel → Option (Int × Kernel))
    (argc : Nat) (argv : List CStr) (tf : Trapframe) (k : Kernel) (cmd : Command) :
    ∀ cmds : List Command, (cmds.map Command.name).Nodup → cmd ∈ cmds →
      argv.headD [] = cmd.name →
      runcmd_lookup invoke argc argv tf k cmds = invoke cmd.func argc argv tf k := by
  intro cmds
  induction cmds with
  | nil => intro _ h; simp at h
  | cons c cs ih =>
    intro hnd hmem hname
    rw [List.map_cons, List.nodup_cons] at hnd
    rw [runcmd_lookup]
    rcases List.mem_cons.1 hmem with rfl | hmem
    · rw [if_pos (by simp only [strcmp_eq, decide_eq_true_eq]; exact hname)]
    · have hne : ¬ argv.headD [] = c.name := by
        intro e
        apply hnd.1
        rw [← e, hname]
        exact List.mem_map_of_mem _ hmem
      simp only [strcmp_eq, decide_eq_true_eq, hne, if_false]
      exact ih hnd.2 hmem hname

theorem runcmd_lookup_miss
    (invoke : Handler → Nat → List CStr → Trapframe → Kernel → Option (Int × Kernel))
    (argc : Nat) (argv : List CStr) (tf : Trapframe) (k : Kernel) :
    ∀ cmds : List Command, (∀ cmd ∈ cmds, cmd.name ≠ argv.headD []) →
      runcmd_lookup invoke argc argv tf k cmds
        = some (0, cprintf "Unknown command '%s'\n" [.str (argv.headD [])] k) := by
  intro cmds
  induction cmds with
  | nil => intro _; rfl
  | cons c cs ih =>
    intro h
    rw [runcmd_lookup]
    have hne : ¬ argv.headD [] = c.name := fun e => h c (List.mem_cons_self _ _) e.symm
    simp only [strcmp_eq, decide_eq_true_eq, hne, if_false]
    exact ih (fun cmd hc => h cmd (List.mem_cons_of_mem _ hc))

theorem commands_names_nodup : (commands.map Command.name).Nodup := by decide

/-- C9: for a line the tokenizer accepts, `runcmd` (i) returns 0 with nothing
printed and nothing invoked when there is no token; (ii) when the first token
equals the name of an entry of `commands`, is the call of that entry's
function with `argc`, `argv` and `tf` on the unchanged console, its result
being returned, the six names being pairwise distinct; (iii) otherwise prints
`Unknown command` with the first token, invokes nothing and returns 0. -/
theorem runcmd_dispatch
    (invoke : Handler → Nat → List CStr → Trapframe → Kernel → Option (Int × Kernel))
    (line : CStr) (tf : Trapframe) (k : Kernel) (hnul : NUL ∉ line)
    (hlim : (whitespaceTokens line).length ≤ MAXARGS - 1) :
    (whitespaceTokens line = [] → runcmd invoke line tf k = some (0, k)) ∧
    (∀ cmd ∈ commands, (whitespaceTokens line).head? = some cmd.name →
        runcmd invoke line tf k
          = invoke cmd.func (whitespaceTokens line).length (whitespaceTokens line) tf k) ∧
    (commands.map Command.name).Nodup ∧ commands.length = 6 ∧
    (∀ tok, (whitespaceTokens line).head? = some tok → (∀ cmd ∈ commands, cmd.name ≠ tok) →
        runcmd invoke line tf k
          = some (0, cprintf "Unknown command '%s'\n" [.str tok] k)) := by
  have hrun := runcmd_eq_lookup invoke line tf k hnul hlim
  refine ⟨?_, ?_, commands_names_nodup, rfl, ?_⟩
  · intro h
    rw [hrun, h]; rfl
  · intro cmd hcmd hhead
    have hne : ¬ (whitespaceTokens line).length = 0 := by
      intro h0
      rw [List.length_eq_zero.1 h0] at hhead
      simp at hhead
    rw [hrun, if_neg hne]
    apply runcmd_lookup_hit _ _ _ _ _ _ _ commands_names_nodup hcmd
    cases hw : whitespaceTokens line with
    | nil => rw [hw] at hhead; simp at hhead
    | cons t ts => rw [hw] at hhead; simpa using hhead
  · intro tok hhead hmiss
    have hne : ¬ (whitespaceTokens line).length = 0 := by
      intro h0
      rw [List.length_eq_zero.1 h0] at hhead
      simp at hhead
    have hd : (whitespaceTokens line).headD [] = tok := by
      cases hw : whitespaceTokens line with
      | nil => rw [hw] at hhead; simp at hhead
      | cons t ts => rw [hw] at hhead; simpa using hhead
    rw [hrun, if_neg hne, runcmd_lookup_miss, hd]
    rw [hd]; exact hmiss

/-- The line `help  me` dispatched with commands that return 7. -/
theorem runcmd_dispatch_witness :
    (whitespaceTokens "help  me".toList = [] →
        runcmd (fun _ _ _ _ k => some (7, k)) "help  me".toList 0 bootKernel
          = some (0, bootKernel)) ∧
    (∀ cmd ∈ commands, (whitespaceTokens "help  me".toList).head? = some cmd.name →
        runcmd (fun _ _ _ _ k => some (7, k)) "help  me".toList 0 bootKernel
          = (fun _ _ _ _ k => some (7, k)) cmd.func (whitespaceTokens "help  me".toList).length
              (whitespaceTokens "help  me".toList) 0 bootKernel) ∧
    (commands.map Command.name).Nodup ∧ commands.length = 6 ∧
    (∀ tok, (whitespaceTokens "help  me".toList).head? = some tok →
        (∀ cmd ∈ commands, cmd.name ≠ tok) →
        runcmd (fun _ _ _ _ k => some (7, k)) "help  me".toList 0 bootKernel
          = some (0, cprintf "Unknown command '%s'\n" [.str tok] bootKernel)) :=
  runcmd_dispatch (fun _ _ _ _ k => some (7, k)) "help  me".toList 0 bootKernel
    (by decide) (by decide)

/-! ## `mon_showmappings` -/

theorem land_page_mask (s : Nat) (hs : s < 2 ^ 32) : s &&& 0xFFFFF000 = s / 4096 * 4096 := by
  apply Nat.eq_of_testBit_eq
  intro i
  have hm : (0xFFFFF000 : Nat) = 2 ^ 12 * (2 ^ 20 - 1) := by norm_num
  have h4 : (4096 : Nat) = 2 ^ 12 := by norm_num
  rw [Nat.testBit_land, hm, h4, Nat.mul_comm (s / 2 ^ 12), Nat.testBit_mul_pow_two,
    Nat.testBit_mul_pow_two, Nat.testBit_two_pow_sub_one, ← Nat.shiftRight_eq_div_pow,
    Nat.testBit_shiftRight]
  by_cases h12 : 12 ≤ i
  · simp only [ge_iff_le, h12, decide_True, Bool.true_and]
    have e : 12 + (i - 12) = i := by omega
    rw [e]
    by_cases h32 : i < 32
    · have : i - 12 < 20 := by omega
      simp [this]
    · have : s.testBit i = false := by
        apply Nat.testBit_lt_two_pow
        calc s < 2 ^ 32 := hs
          _ ≤ 2 ^ i := Nat.pow_le_pow_right (by norm_num) (by omega)
      simp [this]
  · simp [h12]

theorem emit_emit (a b : List Print) (k : Kernel) : emit b (emit a k) = emit (a ++ b) k := by
  simp [emit]

theorem emit_nil (k : Kernel) : emit [] k = k := by
  simp [emit]

theorem cprintf_eq_emit (fmt : String) (args : List Arg) (k : Kernel) :
    cprintf fmt args k = emit [⟨fmt, args⟩] k := rfl

theorem showmappings_loop_pages (pgdir_walk : Nat → Bool → Option Nat) (e : Nat)
    (he : e < 0xFFFFF000) (n : Nat) : ∀ (fuel p : Nat) (k : Kernel), n < fuel →
    (∀ i < n, p + i * 4096 ≤ e) → e < p + n * 4096 →
    showmappings_loop pgdir_walk fuel p e k
      = some (emit ((List.range n).map (fun i =>
          match pgdir_walk (p + i * 4096) false with
          | none => ⟨"page mapping %x -> NULL\n", [.num (p + i * 4096)]⟩
          | some pte =>
            ⟨"page mapping %x -> %x: PTE_P %x, PTE_W %x, PTE_U %x\n",
              [.num (p + i * 4096), .num (PTE_ADDR pte), .num (pte &&& PTE_P),
                .num (pte &&& PTE_W), .num (pte &&& PTE_U)]⟩)) k) := by
  induction n with
  | zero =>
    intro fuel p k hf _ hlt
    obtain ⟨fuel, rfl⟩ : ∃ f, fuel = f + 1 := ⟨fuel - 1, by omega⟩
    rw [showmappings_loop, if_neg (by omega)]
    simp [emit_nil]
  | succ n ih =>
    intro fuel p k hf hle hlt
    obtain ⟨fuel, rfl⟩ : ∃ f, fuel = f + 1 := ⟨fuel - 1, by omega⟩
    have h0 : p ≤ e := by simpa using hle 0 (by omega)
    have hwrap : (p + PGSIZE) % 2 ^ 32 = p + 4096 := by
      simp only [PGSIZE]
      apply Nat.mod_eq_of_lt
      omega
    rw [showmappings_loop, if_pos h0, hwrap]
    simp only []
    rw [ih fuel (p + 4096) _ (by omega)
      (fun i hi => by have := hle (i + 1) (by omega); omega) (by omega)]
    rw [List.range_succ_eq_map, List.map_cons, List.map_map]
    have hfun : ∀ i, p + 4096 + i * 4096 = p + (i + 1) * 4096 := fun i => by omega
    cases hw : pgdir_walk p false with
    | none =>
      simp only [cprintf_eq_emit, emit_emit, hfun, Nat.zero_mul, Nat.add_zero, hw,
        List.singleton_append]
      rfl
    | some pte =>
      simp only [cprintf_eq_emit, emit_emit, hfun, Nat.zero_mul, Nat.add_zero, hw,
        List.singleton_append]
      rfl


/-- C10: when both addresses parse, with `start <= end` and `end < 0xFFFFF000`,
`mon_showmappings` returns 0 after printing one line for each page address
`(start & ~0xFFF) + i * 4096` that is `<= end`, in ascending order, these
being the ones with `i < (end >> 12) - (start >> 12) + 1`; the line is the
`NULL` line when the walk in non-allocating mode (`create = false`) finds no
entry, and otherwise shows the entry's address field and its `PTE_P`,
`PTE_W`, `PTE_U` bits. When `start > end` it prints nothing and returns 0. -/
theorem mon_showmappings_pages (pgdir_walk : Nat → Bool → Option Nat) (fuel : Nat)
    (name a1 a2 : CStr) (tf : Trapframe) (k : Kernel) (start_addr end_addr : Nat)
    (h1 : read_addr a1 k = (start_addr, true, k))
    (h2 : read_addr a2 k = (end_addr, true, k)) :
    (start_addr ≤ end_addr → end_addr < 0xFFFFF000 →
      (end_addr >>> 12) - (start_addr >>> 12) + 1 < fuel →
      mon_showmappings pgdir_walk fuel 3 [name, a1, a2] tf k
          = some ((0 : Int), emit ((List.range ((end_addr >>> 12) - (start_addr >>> 12) + 1)).map
              (fun i =>
                match pgdir_walk ((start_addr &&& 0xFFFFF000) + i * 4096) false with
                | none =>
                  ⟨"page mapping %x -> NULL\n", [.num ((start_addr &&& 0xFFFFF000) + i * 4096)]⟩
                | some pte =>
                  ⟨"page mapping %x -> %x: PTE_P %x, PTE_W %x, PTE_U %x\n",
                    [.num ((start_addr &&& 0xFFFFF000) + i * 4096), .num (PTE_ADDR pte),
                      .num (pte &&& PTE_P), .num (pte &&& PTE_W), .num (pte &&& PTE_U)]⟩)) k)
        ∧ ∀ i, (start_addr &&& 0xFFFFF000) + i * 4096 ≤ end_addr
            ↔ i < (end_addr >>> 12) - (start_addr >>> 12) + 1) ∧
    (end_addr < start_addr →
      mon_showmappings pgdir_walk fuel 3 [name, a1, a2] tf k = some (0, k)) := by
  have hs : start_addr < 2 ^ 32 := by
    have := read_addr_lt a1 k
    rwa [h1] at this
  have hrun : mon_showmappings pgdir_walk fuel 3 [name, a1, a2] tf k
      = if start_addr > end_addr then some (0, k)
        else (showmappings_loop pgdir_walk fuel (start_addr &&& 0xFFFFF000) end_addr k).map
          (fun k3 => (0, k3)) := by
    simp [mon_showmappings, h1, h2]
  have hmask := land_page_mask start_addr hs
  have hsh1 : start_addr >>> 12 = start_addr / 4096 := Nat.shiftRight_eq_div_pow _ 12
  have hsh2 : end_addr >>> 12 = end_addr / 4096 := Nat.shiftRight_eq_div_pow _ 12
  refine ⟨?_, ?_⟩
  · intro hle hend hfuel
    have hcount : ∀ i, (start_addr &&& 0xFFFFF000) + i * 4096 ≤ end_addr
        ↔ i < (end_addr >>> 12) - (start_addr >>> 12) + 1 := by
      intro i
      rw [hmask, hsh1, hsh2]
      omega
    refine ⟨?_, hcount⟩
    rw [hrun, if_neg (by omega),
      showmappings_loop_pages pgdir_walk end_addr hend _ fuel _ k hfuel
        (fun i hi => (hcount i).2 hi)
        (by
          have := (hcount ((end_addr >>> 12) - (start_addr >>> 12) + 1)).not.2 (by omega)
          omega)]
    rfl
  · intro hlt
    rw [hrun, if_pos hlt]

/-- The command `showmappings 0x1000 0x1000` on a mapped page prints one line;
`showmappings 0x2000 0x1000` prints none. -/
theorem mon_showmappings_pages_witness :
    mon_showmappings (fun va _ => if va = 0x1000 then some 0x5007 else none) 2 3
        ["showmappings".toList, "0x1000".toList, "0x1000".toList] 0 bootKernel
      = some (0, emit [⟨"page mapping %x -> %x: PTE_P %x, PTE_W %x, PTE_U %x\n",
          [.num 0x1000, .num 0x5000, .num 1, .num 2, .num 4]⟩] bootKernel) ∧
    mon_showmappings (fun va _ => if va = 0x1000 then some 0x5007 else none) 0 3
        ["showmappings".toList, "0x2000".toList, "0x1000".toList] 0 bootKernel
      = some (0, bootKernel) :=
  ⟨((mon_showmappings_pages (fun va _ => if va = 0x1000 then some 0x5007 else none) 2
      "showmappings".toList "0x1000".toList "0x1000".toList 0 bootKernel 0x1000 0x1000
      rfl rfl).1 (by decide) (by decide) (by decide)).1,
   (mon_showmappings_pages (fun va _ => if va = 0x1000 then some 0x5007 else none) 0
      "showmappings".toList "0x2000".toList "0x1000".toList 0 bootKernel 0x2000 0x1000
      rfl rfl).2 (by decide)⟩

/-! ## `mon_setperm` -/

theorem read_addr_loop_state (base : Nat) (ds : CStr) (k k' : Kernel) :
    ∀ r, (read_addr_loop base ds r k).1 = (read_addr_loop base ds r k').1 ∧
      (read_addr_loop base ds r k).2.1 = (read_addr_loop base ds r k').2.1 ∧
      ((read_addr_loop base ds r k).2.1 = true → (read_addr_loop base ds r k).2.2 = k) := by
  induction ds with
  | nil => intro r; simp [read_addr_loop]
  | cons c ds ih =>
    intro r
    rw [read_addr_loop, read_addr_loop]
    split
    · split
      · exact ih _
      · simp
    · split
      · exact ih _
      · simp

theorem read_addr_state (a : CStr) (k k' : Kernel) (v : Nat)
    (h : read_addr a k = (v, true, k)) : read_addr a k' = (v, true, k') := by
  rw [read_addr_eq_loop] at h ⊢
  obtain ⟨h1, h2, _⟩ := read_addr_loop_state (if hexTagged a then 16 else 10) (payload a) k k' 0
  obtain ⟨_, _, h3⟩ := read_addr_loop_state (if hexTagged a then 16 else 10) (payload a) k' k 0
  rw [h] at h1 h2
  simp only at h1 h2
  have hs : (read_addr_loop (if hexTagged a then 16 else 10) (payload a) 0 k').2.1 = true :=
    h2.symm
  have := h3 hs
  ext
  · exact h1.symm
  · exact hs
  · rw [this]

theorem setperm_switch_mem (bit : CStr) (k : Kernel) : (setperm_switch bit k).2.mem = k.mem := by
  unfold setperm_switch
  split_ifs <;> rfl

theorem setperm_switch_perm (bit : CStr) (k k' : Kernel) :
    (setperm_switch bit k).1 = (setperm_switch bit k').1 := by
  unfold setperm_switch
  split_ifs <;> rfl

theorem setperm_update_mem (en : CStr) (perm pte : Nat) (k k' : Kernel) (h : k.mem = k'.mem) :
    (setperm_update en perm pte k).mem = (setperm_update en perm pte k').mem := by
  unfold setperm_update
  split_ifs <;> simp [store, cprintf, h]

theorem setperm_update_out (en : CStr) (perm pte : Nat) (k : Kernel) :
    (setperm_update en perm pte k).out
      = k.out ++ (if en.headD NUL = '1' ∨ en.headD NUL = '0' then []
          else [⟨"%s", [.str setperm_msg]⟩]) := by
  unfold setperm_update
  split_ifs <;> simp_all [store, cprintf]

theorem mon_setperm_parsed (pgdir_walk : Nat → Kernel → Nat × Kernel)
    (name a en bit : CStr) (tf : Trapframe) (k k2 : Kernel) (addr pte : Nat)
    (hread : read_addr a k = (addr, true, k)) (hwalk : pgdir_walk addr k = (pte, k2)) :
    mon_setperm pgdir_walk 4 [name, a, en, bit] tf k
      = some (0, setperm_body [name, a, en, bit] pte k2) := by
  simp [mon_setperm, hread, hwalk]

theorem setperm_body_mem (name a en bit : CStr) (pte : Nat) (k2 : Kernel) :
    (setperm_body [name, a, en, bit] pte k2).mem
      = (setperm_update en (setperm_switch bit k2).1 pte k2).mem := by
  show (setperm_update en _ pte _).mem = _
  apply setperm_update_mem
  exact setperm_switch_mem bit k2

theorem setperm_body_out (name a en bit : CStr) (pte : Nat) (k2 : Kernel) :
    (setperm_body [name, a, en, bit] pte k2).out
      = (setperm_switch bit k2).2.out
        ++ [⟨"Permissions for %s:\nPTE_P %x, PTE_W %x, PTE_U %x ->\n",
            [.str a, .num (k2.mem pte &&& PTE_P), .num (k2.mem pte &&& PTE_W),
              .num (k2.mem pte &&& PTE_U)]⟩]
        ++ (if en.headD NUL = '1' ∨ en.headD NUL = '0' then []
            else [⟨"%s", [.str setperm_msg]⟩])
        ++ [⟨"PTE_P %x, PTE_W %x, PTE_U %x\n",
            [.num ((setperm_body [name, a, en, bit] pte k2).mem pte &&& PTE_P),
              .num ((setperm_body [name, a, en, bit] pte k2).mem pte &&& PTE_W),
              .num ((setperm_body [name, a, en, bit] pte k2).mem pte &&& PTE_U)]⟩] := by
  have hm := setperm_switch_mem bit k2
  rw [setperm_body_mem]
  rcases h : setperm_switch bit k2 with ⟨perm, k3⟩
  rw [h] at hm
  simp only at hm
  simp only [setperm_body, List.getD_cons_succ, List.getD_cons_zero, h]
  have hu : (setperm_update en perm pte
      (cprintf "Permissions for %s:\nPTE_P %x, PTE_W %x, PTE_U %x ->\n"
        [.str a, .num (k3.mem pte &&& PTE_P), .num (k3.mem pte &&& PTE_W),
          .num (k3.mem pte &&& PTE_U)] k3)).mem
      = (setperm_update en perm pte k2).mem :=
    setperm_update_mem en perm pte _ k2 hm
  rw [hu]
  simp only [cprintf, setperm_update_out, hm]

theorem testBit_not32 (x i : Nat) : (not32 x).testBit i = xor (x.testBit i) (decide (i < 32)) := by
  have h : (0xFFFFFFFF : Nat) = 2 ^ 32 - 1 := by norm_num
  rw [not32, Nat.testBit_xor, h, Nat.testBit_two_pow_sub_one]

theorem testBit_of_lt32 (e i : Nat) (he : e < 2 ^ 32) (hi : 32 ≤ i) : e.testBit i = false :=
  Nat.testBit_lt_two_pow (lt_of_lt_of_le he (Nat.pow_le_pow_right (by norm_num) hi))

theorem flag_is_bit (b : Char) (f : Nat)
    (hb : (b, f) ∈ [('P', PTE_P), ('W', PTE_W), ('U', PTE_U)]) :
    ∃ j, j < 32 ∧ f = 2 ^ j := by
  simp only [List.mem_cons, Prod.mk.injEq, List.mem_singleton, List.not_mem_nil, or_false] at hb
  rcases hb with ⟨_, rfl⟩ | ⟨_, rfl⟩ | ⟨_, rfl⟩
  · exact ⟨0, by norm_num, rfl⟩
  · exact ⟨1, by norm_num, rfl⟩
  · exact ⟨2, by norm_num, rfl⟩

theorem lor_flag_other_bit (e j i : Nat) (hij : 2 ^ i ≠ 2 ^ j) :
    (e ||| 2 ^ j).testBit i = e.testBit i := by
  have hne : j ≠ i := fun h => hij (by rw [h])
  rw [Nat.testBit_lor, Nat.testBit_two_pow]
  simp [hne]

theorem land_not_flag_other_bit (e j i : Nat) (he : e < 2 ^ 32) (hij : 2 ^ i ≠ 2 ^ j) :
    (e &&& not32 (2 ^ j)).testBit i = e.testBit i := by
  have hne : j ≠ i := fun h => hij (by rw [h])
  rw [Nat.testBit_land, testBit_not32, Nat.testBit_two_pow]
  by_cases hi : i < 32
  · simp [hne, hi]
  · simp [hne, hi, testBit_of_lt32 e i he (by omega)]

theorem lor_land_not_flag (e j : Nat) (hj : j < 32) (he : e < 2 ^ 32) (hclear : e &&& 2 ^ j = 0) :
    (e ||| 2 ^ j) &&& not32 (2 ^ j) = e := by
  apply Nat.eq_of_testBit_eq
  intro i
  rw [Nat.testBit_land, testBit_not32, Nat.testBit_lor, Nat.testBit_two_pow]
  by_cases hij : j = i
  · subst hij
    have : (e &&& 2 ^ j).testBit j = false := by rw [hclear]; simp
    rw [Nat.testBit_land, Nat.testBit_two_pow] at this
    simp at this
    simp [this, hj]
  · by_cases hi : i < 32
    · simp [hij, hi]
    · simp [hij, hi, testBit_of_lt32 e i he (by omega)]

theorem land_not32_zero (e : Nat) (he : e < 2 ^ 32) : e &&& not32 0 = e := by
  apply Nat.eq_of_testBit_eq
  intro i
  rw [Nat.testBit_land, testBit_not32]
  by_cases hi : i < 32
  · simp [hi]
  · simp [hi, testBit_of_lt32 e i he (by omega)]

theorem store_mem_of_eq (p v : Nat) (k k' : Kernel) (hv : v = k'.mem p) (h : k.mem = k'.mem) :
    (store p v k).mem = k'.mem := by
  funext x
  simp only [store, h]
  split
  · next hx => rw [hx, hv]
  · rfl

theorem store_mem_congr (p v : Nat) (k k' : Kernel) (w : Nat) (h : k.mem = (store p w k').mem) :
    (store p v k).mem = (store p v k').mem := by
  funext x
  simp only [store, h]
  split <;> rfl

theorem mon_setperm_mem (pgdir_walk : Nat → Kernel → Nat × Kernel)
    (name a en bit : CStr) (tf : Trapframe) (k k2 : Kernel) (addr pte : Nat)
    (hread : read_addr a k = (addr, true, k)) (hwalk : pgdir_walk addr k = (pte, k2)) :
    ∃ k', mon_setperm pgdir_walk 4 [name, a, en, bit] tf k = some (0, k') ∧
      k'.mem = (setperm_update en (setperm_switch bit k2).1 pte k2).mem :=
  ⟨_, mon_setperm_parsed pgdir_walk name a en bit tf k k2 addr pte hread hwalk,
    setperm_body_mem name a en bit pte k2⟩

theorem setperm_switch_flag (b : Char) (f : Nat) (k : Kernel)
    (hb : (b, f) ∈ [('P', PTE_P), ('W', PTE_W), ('U', PTE_U)]) :
    (setperm_switch [b] k).1 = f := by
  simp only [List.mem_cons, Prod.mk.injEq, List.mem_singleton, List.not_mem_nil, or_false] at hb
  rcases hb with ⟨rfl, rfl⟩ | ⟨rfl, rfl⟩ | ⟨rfl, rfl⟩ <;> rfl

theorem setperm_update_one (perm pte : Nat) (k : Kernel) :
    setperm_update "1".toList perm pte k = store pte (k.mem pte ||| perm) k := rfl

theorem setperm_update_zero (perm pte : Nat) (k : Kernel) :
    setperm_update "0".toList perm pte k = store pte (k.mem pte &&& not32 perm) k := rfl

/-- C11: on an entry that holds the 32-bit value `e`, for a bit letter `P`, `W` or
`U` with flag `f`, the walk finding the same slot without changing the state:
`mon_setperm` with enable `1` leaves the entry equal to `e | f` and with enable
`0` equal to `e & ~f`, the rest of the memory being untouched; every bit other
than `f` is unchanged; running the same command a second time changes
nothing more; and when `f` is clear in `e`, setting and then clearing restores
the memory. -/
theorem mon_setperm_sets_and_clears (pgdir_walk : Nat → Kernel → Nat × Kernel)
    (name a : CStr) (tf : Trapframe) (k : Kernel) (addr pte e f : Nat) (b : Char)
    (hread : read_addr a k = (addr, true, k))
    (hwalk : ∀ k', pgdir_walk addr k' = (pte, k'))
    (hb : (b, f) ∈ [('P', PTE_P), ('W', PTE_W), ('U', PTE_U)])
    (he : k.mem pte = e) (h32 : e < 2 ^ 32) :
    (∃ k1, mon_setperm pgdir_walk 4 [name, a, "1".toList, [b]] tf k = some (0, k1) ∧
        k1.mem = (store pte (e ||| f) k).mem ∧
        (∃ k2, mon_setperm pgdir_walk 4 [name, a, "1".toList, [b]] tf k1 = some (0, k2) ∧
          k2.mem = k1.mem) ∧
        (e &&& f = 0 →
          ∃ k2, mon_setperm pgdir_walk 4 [name, a, "0".toList, [b]] tf k1 = some (0, k2) ∧
            k2.mem = k.mem)) ∧
    (∃ k0, mon_setperm pgdir_walk 4 [name, a, "0".toList, [b]] tf k = some (0, k0) ∧
        k0.mem = (store pte (e &&& not32 f) k).mem ∧
        (∃ k2, mon_setperm pgdir_walk 4 [name, a, "0".toList, [b]] tf k0 = some (0, k2) ∧
          k2.mem = k0.mem)) ∧
    (∀ i, 2 ^ i ≠ f →
      (e ||| f).testBit i = e.testBit i ∧ (e &&& not32 f).testBit i = e.testBit i) := by
  obtain ⟨j, hj, rfl⟩ := flag_is_bit b _ hb
  have hrun : ∀ (en : CStr) (k' : Kernel),
      ∃ k1, mon_setperm pgdir_walk 4 [name, a, en, [b]] tf k' = some (0, k1) ∧
        k1.mem = (setperm_update en (2 ^ j) pte k').mem := by
    intro en k'
    obtain ⟨k1, h1, h2⟩ := mon_setperm_mem pgdir_walk name a en [b] tf k' k' addr pte
      (read_addr_state a k k' addr hread) (hwalk k')
    rw [setperm_switch_flag b _ k' hb] at h2
    exact ⟨k1, h1, h2⟩
  refine ⟨?_, ?_, ?_⟩
  · obtain ⟨k1, h1, hm1⟩ := hrun "1".toList k
    rw [setperm_update_one, he] at hm1
    have hk1 : k1.mem pte = e ||| 2 ^ j := by rw [hm1]; simp [store]
    refine ⟨k1, h1, hm1, ?_, ?_⟩
    · obtain ⟨k2, h2, hm2⟩ := hrun "1".toList k1
      rw [setperm_update_one] at hm2
      refine ⟨k2, h2, ?_⟩
      rw [hm2]
      apply store_mem_of_eq _ _ _ _ _ rfl
      rw [hk1, Nat.lor_assoc, Nat.or_self]
    · intro hclear
      obtain ⟨k2, h2, hm2⟩ := hrun "0".toList k1
      rw [setperm_update_zero] at hm2
      refine ⟨k2, h2, ?_⟩
      rw [hm2, store_mem_congr pte _ k1 k _ hm1]
      apply store_mem_of_eq _ _ _ _ _ rfl
      rw [hk1, he, lor_land_not_flag e j hj h32 hclear]
  · obtain ⟨k0, h0, hm0⟩ := hrun "0".toList k
    rw [setperm_update_zero, he] at hm0
    have hk0 : k0.mem pte = e &&& not32 (2 ^ j) := by rw [hm0]; simp [store]
    refine ⟨k0, h0, hm0, ?_⟩
    obtain ⟨k2, h2, hm2⟩ := hrun "0".toList k0
    rw [setperm_update_zero] at hm2
    refine ⟨k2, h2, ?_⟩
    rw [hm2]
    apply store_mem_of_eq _ _ _ _ _ rfl
    rw [hk0, Nat.land_assoc, Nat.and_self]
  · intro i hi
    exact ⟨lor_flag_other_bit e j i hi, land_not_flag_other_bit e j i h32 hi⟩

/-- On the entry 5 (`P` and `U` set), `setperm 0x2000 1 W` leaves 7, and
`setperm 0x2000 0 W` after it restores 5. -/
theorem mon_setperm_sets_and_clears_witness :
    ∃ k1, mon_setperm (fun _ k => (0x3000, k)) 4
          ["setperm".toList, "0x2000".toList, "1".toList, "W".toList] 0
          (store 0x3000 5 bootKernel) = some (0, k1) ∧
      k1.mem = (store 0x3000 7 (store 0x3000 5 bootKernel)).mem ∧
      ∃ k2, mon_setperm (fun _ k => (0x3000, k)) 4
          ["setperm".toList, "0x2000".toList, "0".toList, "W".toList] 0 k1 = some (0, k2) ∧
        k2.mem = (store 0x3000 5 bootKernel).mem :=
  let ⟨k1, h1, h2, _, h4⟩ :=
    (mon_setperm_sets_and_clears (fun _ k => (0x3000, k)) "setperm".toList "0x2000".toList 0
      (store 0x3000 5 bootKernel) 0x2000 0x3000 5 PTE_W 'W' rfl (fun _ => rfl) (by decide) rfl
      (by decide)).1
  ⟨k1, h1, h2, h4 (by decide)⟩

theorem setperm_switch_unsupported (bit : CStr) (k : Kernel)
    (hbit : bit.headD NUL ≠ 'P' ∧ bit.headD NUL ≠ 'W' ∧ bit.headD NUL ≠ 'U') :
    setperm_switch bit k = (0, cprintf "Permission %s not supported\n" [.str bit] k) := by
  unfold setperm_switch
  rw [if_neg hbit.1, if_neg hbit.2.1, if_neg hbit.2.2]

theorem setperm_update_zero_perm (en : CStr) (pte : Nat) (k : Kernel) (h32 : k.mem pte < 2 ^ 32) :
    (setperm_update en 0 pte k).mem = k.mem := by
  unfold setperm_update
  split_ifs
  · exact store_mem_of_eq _ _ _ _ (by simp) rfl
  · exact store_mem_of_eq _ _ _ _ (land_not32_zero _ h32) rfl
  · rfl

theorem setperm_update_other (en : CStr) (perm pte : Nat) (k : Kernel)
    (hen : en.headD NUL ≠ '1' ∧ en.headD NUL ≠ '0') :
    (setperm_update en perm pte k).mem = k.mem := by
  unfold setperm_update
  rw [if_neg hen.1, if_neg hen.2]
  rfl

/-- C12: with three arguments, a parsable address and a bit token whose first
character is not `P`, `W` or `U`, whatever the enable token is, `mon_setperm`
returns 0 after printing the `not supported` message, the before line, the
usage message when the enable token starts with neither `1` nor `0`, and the
after line; the two lines show the same three values and the memory, so the
entry, is unchanged. -/
theorem mon_setperm_unsupported_bit (pgdir_walk : Nat → Kernel → Nat × Kernel)
    (name a en bit : CStr) (tf : Trapframe) (k k2 : Kernel) (addr pte : Nat)
    (hread : read_addr a k = (addr, true, k)) (hwalk : pgdir_walk addr k = (pte, k2))
    (hbit : bit.headD NUL ≠ 'P' ∧ bit.headD NUL ≠ 'W' ∧ bit.headD NUL ≠ 'U')
    (h32 : k2.mem pte < 2 ^ 32) :
    ∃ k', mon_setperm pgdir_walk 4 [name, a, en, bit] tf k = some (0, k') ∧
      k'.mem = k2.mem ∧
      k'.out = k2.out
        ++ [⟨"Permission %s not supported\n", [.str bit]⟩,
            ⟨"Permissions for %s:\nPTE_P %x, PTE_W %x, PTE_U %x ->\n",
              [.str a, .num (k2.mem pte &&& PTE_P), .num (k2.mem pte &&& PTE_W),
                .num (k2.mem pte &&& PTE_U)]⟩]
        ++ (if en.headD NUL = '1' ∨ en.headD NUL = '0' then []
            else [⟨"%s", [.str setperm_msg]⟩])
        ++ [⟨"PTE_P %x, PTE_W %x, PTE_U %x\n",
            [.num (k2.mem pte &&& PTE_P), .num (k2.mem pte &&& PTE_W),
              .num (k2.mem pte &&& PTE_U)]⟩] := by
  have hmem : (setperm_body [name, a, en, bit] pte k2).mem = k2.mem := by
    rw [setperm_body_mem, setperm_switch_unsupported bit k2 hbit]
    exact setperm_update_zero_perm en pte k2 h32
  refine ⟨_, mon_setperm_parsed pgdir_walk name a en bit tf k k2 addr pte hread hwalk, hmem, ?_⟩
  rw [setperm_body_out, hmem, setperm_switch_unsupported bit k2 hbit]
  simp [cprintf]

/-- The command `setperm 0x2000 1 X` on the entry 5. -/
theorem mon_setperm_unsupported_bit_witness :
    ∃ k', mon_setperm (fun _ k => (0x3000, k)) 4
          ["setperm".toList, "0x2000".toList, "1".toList, "X".toList] 0
          (store 0x3000 5 bootKernel) = some (0, k') ∧
      k'.mem = (store 0x3000 5 bootKernel).mem ∧
      k'.out = [⟨"Permission %s not supported\n", [.str "X".toList]⟩,
          ⟨"Permissions for %s:\nPTE_P %x, PTE_W %x, PTE_U %x ->\n",
            [.str "0x2000".toList, .num 1, .num 0, .num 4]⟩,
          ⟨"PTE_P %x, PTE_W %x, PTE_U %x\n", [.num 1, .num 0, .num 4]⟩] :=
  mon_setperm_unsupported_bit (fun _ k => (0x3000, k)) "setperm".toList "0x2000".toList
    "1".toList "X".toList 0 (store 0x3000 5 bootKernel) (store 0x3000 5 bootKernel) 0x2000 0x3000
    rfl rfl (by decide) (by decide)

/-- C13 fails on the code: the enable token `10` is not the token `1`, yet
`setperm 0x2000 10 W` reports no usage error and changes the entry. -/
theorem mon_setperm_enable_token_counterexample :
    ¬ ∀ k', mon_setperm (fun _ k => (0x3000, k)) 4
          ["setperm".toList, "0x2000".toList, "10".toList, "W".toList] 0 bootKernel
          = some (0, k') →
        (⟨"%s", [.str setperm_msg]⟩ ∈ k'.out ∧ k'.mem 0x3000 = bootKernel.mem 0x3000) := by
  intro h
  have h2 := (h _ rfl).2
  revert h2
  decide

/-- C13, amended: with three arguments, a parsable address and an enable token
whose first character is neither `1` nor `0`, `mon_setperm` prints the usage
message between the before line and the after line, leaves the memory, so the
entry, unchanged, the after line showing the values of the before line, and
returns 0. -/
theorem mon_setperm_bad_enable (pgdir_walk : Nat → Kernel → Nat × Kernel)
    (name a en bit : CStr) (tf : Trapframe) (k k2 : Kernel) (addr pte : Nat)
    (hread : read_addr a k = (addr, true, k)) (hwalk : pgdir_walk addr k = (pte, k2))
    (hen : en.headD NUL ≠ '1' ∧ en.headD NUL ≠ '0') :
    ∃ k', mon_setperm pgdir_walk 4 [name, a, en, bit] tf k = some (0, k') ∧
      k'.mem = k2.mem ∧
      k'.out = (setperm_switch bit k2).2.out
        ++ [⟨"Permissions for %s:\nPTE_P %x, PTE_W %x, PTE_U %x ->\n",
              [.str a, .num (k2.mem pte &&& PTE_P), .num (k2.mem pte &&& PTE_W),
                .num (k2.mem pte &&& PTE_U)]⟩,
            ⟨"%s", [.str setperm_msg]⟩,
            ⟨"PTE_P %x, PTE_W %x, PTE_U %x\n",
              [.num (k2.mem pte &&& PTE_P), .num (k2.mem pte &&& PTE_W),
                .num (k2.mem pte &&& PTE_U)]⟩] := by
  have hmem : (setperm_body [name, a, en, bit] pte k2).mem = k2.mem := by
    rw [setperm_body_mem]
    exact setperm_update_other en _ pte k2 hen
  refine ⟨_, mon_setperm_parsed pgdir_walk name a en bit tf k k2 addr pte hread hwalk, hmem, ?_⟩
  rw [setperm_body_out, hmem, if_neg (by
    intro h
    rcases h with h | h
    · exact hen.1 h
    · exact hen.2 h)]
  simp

/-- The command `setperm 0x2000 2 W` on the entry 5. -/
theorem mon_setperm_bad_enable_witness :
    ∃ k', mon_setperm (fun _ k => (0x3000, k)) 4
          ["setperm".toList, "0x2000".toList, "2".toList, "W".toList] 0
          (store 0x3000 5 bootKernel) = some (0, k') ∧
      k'.mem = (store 0x3000 5 bootKernel).mem ∧
      k'.out = [⟨"Permissions for %s:\nPTE_P %x, PTE_W %x, PTE_U %x ->\n",
            [.str "0x2000".toList, .num 1, .num 0, .num 4]⟩,
          ⟨"%s", [.str setperm_msg]⟩,
          ⟨"PTE_P %x, PTE_W %x, PTE_U %x\n", [.num 1, .num 0, .num 4]⟩] :=
  mon_setperm_bad_enable (fun _ k => (0x3000, k)) "setperm".toList "0x2000".toList
    "2".toList "W".toList 0 (store 0x3000 5 bootKernel) (store 0x3000 5 bootKernel) 0x2000 0x3000
    rfl rfl (by decide)

theorem setperm_switch_first_char (b1 b2 : CStr) (k : Kernel) (h : b1.head? = b2.head?) :
    (setperm_switch b1 k).1 = (setperm_switch b2 k).1 := by
  have hd : b1.headD NUL = b2.headD NUL := by
    rw [List.headD_eq_head?_getD, List.headD_eq_head?_getD, h]
  unfold setperm_switch
  rw [hd]
  split_ifs <;> rfl

theorem setperm_update_first_char (e1 e2 : CStr) (perm pte : Nat) (k : Kernel)
    (h : e1.head? = e2.head?) :
    setperm_update e1 perm pte k = setperm_update e2 perm pte k := by
  have hd : e1.headD NUL = e2.headD NUL := by
    rw [List.headD_eq_head?_getD, List.headD_eq_head?_getD, h]
  unfold setperm_update
  rw [hd]

theorem mon_setperm_mem_general (pgdir_walk : Nat → Kernel → Nat × Kernel)
    (name a en bit : CStr) (tf : Trapframe) (k : Kernel) :
    (mon_setperm pgdir_walk 4 [name, a, en, bit] tf k).map (fun r => r.2.mem)
      = if (read_addr a k).2.1 = false then some (read_addr a k).2.2.mem
        else some (setperm_update en
          (setperm_switch bit (pgdir_walk (read_addr a k).1 (read_addr a k).2.2).2).1
          (pgdir_walk (read_addr a k).1 (read_addr a k).2.2).1
          (pgdir_walk (read_addr a k).1 (read_addr a k).2.2).2).mem := by
  simp only [mon_setperm, List.getD_cons_succ, List.getD_cons_zero]
  simp only [ne_eq, not_true_eq_false, if_false]
  split_ifs
  · rfl
  · simp only [Option.map_some', setperm_body_mem]

/-- C20: two invocations of `mon_setperm` in the same state with the same address
token, whose enable tokens have the same first character and whose bit tokens
have the same first character, leave the same memory, so the same value in
the page-table entry. -/
theorem mon_setperm_first_characters (pgdir_walk : Nat → Kernel → Nat × Kernel)
    (name1 name2 a en1 en2 bit1 bit2 : CStr) (tf : Trapframe) (k : Kernel)
    (hen : en1.head? = en2.head?) (hbit : bit1.head? = bit2.head?) :
    (mon_setperm pgdir_walk 4 [name1, a, en1, bit1] tf k).map (fun r => r.2.mem)
      = (mon_setperm pgdir_walk 4 [name2, a, en2, bit2] tf k).map (fun r => r.2.mem) := by
  rw [mon_setperm_mem_general, mon_setperm_mem_general,
    setperm_switch_first_char bit1 bit2 _ hbit, setperm_update_first_char en1 en2 _ _ _ hen]

/-- Enable `1` against `10`, bit `W` against `Wxyz`. -/
theorem mon_setperm_first_characters_witness :
    (mon_setperm (fun _ k => (0x3000, k)) 4
        ["setperm".toList, "0x2000".toList, "1".toList, "W".toList] 0 bootKernel).map
        (fun r => r.2.mem)
      = (mon_setperm (fun _ k => (0x3000, k)) 4
        ["setperm".toList, "0x2000".toList, "10".toList, "Wxyz".toList] 0 bootKernel).map
        (fun r => r.2.mem) :=
  mon_setperm_first_characters (fun _ k => (0x3000, k)) "setperm".toList "setperm".toList
    "0x2000".toList "1".toList "10".toList "W".toList "Wxyz".toList 0 bootKernel rfl rfl

/-! ## `mon_checkvm` -/

theorem emit_mem (ps : List Print) (k : Kernel) : (emit ps k).mem = k.mem := rfl

theorem cprintf_mem (fmt : String) (args : List Arg) (k : Kernel) :
    (cprintf fmt args k).mem = k.mem := rfl

theorem checkvm_loop_words (e : Nat) (he : e ≤ 0xFFFFFFFB) (n : Nat) :
    ∀ (fuel p : Nat) (k : Kernel), n < fuel →
    (∀ i < n, p + 4 * i ≤ e) → e < p + 4 * n →
    checkvm_loop fuel p e k
      = some (emit ((List.range n).map (fun i =>
          ⟨"vaddr: %x, value: %x\n", [.num (p + 4 * i), .num (k.mem (p + 4 * i))]⟩)) k) := by
  induction n with
  | zero =>
    intro fuel p k hf _ hlt
    obtain ⟨fuel, rfl⟩ : ∃ f, fuel = f + 1 := ⟨fuel - 1, by omega⟩
    rw [checkvm_loop, if_neg (by omega)]
    simp [emit_nil]
  | succ n ih =>
    intro fuel p k hf hle hlt
    obtain ⟨fuel, rfl⟩ : ∃ f, fuel = f + 1 := ⟨fuel - 1, by omega⟩
    have h0 : p ≤ e := by simpa using hle 0 (by omega)
    have hwrap : (p + 4) % 2 ^ 32 = p + 4 := by
      apply Nat.mod_eq_of_lt
      omega
    rw [checkvm_loop, if_pos h0, hwrap]
    rw [ih fuel (p + 4) _ (by omega)
      (fun i hi => by have := hle (i + 1) (by omega); omega) (by omega)]
    rw [List.range_succ_eq_map, List.map_cons, List.map_map]
    have hfun : ∀ i, p + 4 + 4 * i = p + 4 * (i + 1) := fun i => by omega
    simp only [cprintf_eq_emit, emit_emit, emit_mem, hfun, Nat.mul_zero, Nat.add_zero,
      List.singleton_append]
    rfl

/-- C15: when both addresses parse and `end <= 0xFFFFFFFB`, `mon_checkvm`, given
fuel for its loop, returns 0 after printing, in ascending order, one line for
each address `start + 4 * i` that is `<= end`, with the word stored there;
there is no ordering check: when `start > end` nothing is printed; and the
memory is unchanged. -/
theorem mon_checkvm_words (fuel : Nat) (name a1 a2 : CStr) (tf : Trapframe) (k : Kernel)
    (start_addr end_addr : Nat)
    (h1 : read_addr a1 k = (start_addr, true, k))
    (h2 : read_addr a2 k = (end_addr, true, k))
    (hend : end_addr ≤ 0xFFFFFFFB) (hfuel : (end_addr + 4 - start_addr) / 4 < fuel) :
    mon_checkvm fuel 3 [name, a1, a2] tf k
        = some ((0 : Int), emit ((List.range ((end_addr + 4 - start_addr) / 4)).map (fun i =>
            ⟨"vaddr: %x, value: %x\n",
              [.num (start_addr + 4 * i), .num (k.mem (start_addr + 4 * i))]⟩)) k)
      ∧ (∀ i, start_addr + 4 * i ≤ end_addr ↔ i < (end_addr + 4 - start_addr) / 4)
      ∧ (end_addr < start_addr → mon_checkvm fuel 3 [name, a1, a2] tf k = some (0, k))
      ∧ ∀ r k1, mon_checkvm fuel 3 [name, a1, a2] tf k = some (r, k1) →
          r = 0 ∧ k1.mem = k.mem := by
  have hcount : ∀ i, start_addr + 4 * i ≤ end_addr ↔ i < (end_addr + 4 - start_addr) / 4 := by
    intro i; omega
  have hrun : mon_checkvm fuel 3 [name, a1, a2] tf k
      = (checkvm_loop fuel start_addr end_addr k).map (fun k3 => ((0 : Int), k3)) := by
    simp [mon_checkvm, h1, h2]
  have hres : mon_checkvm fuel 3 [name, a1, a2] tf k
      = some ((0 : Int), emit ((List.range ((end_addr + 4 - start_addr) / 4)).map (fun i =>
          ⟨"vaddr: %x, value: %x\n",
            [.num (start_addr + 4 * i), .num (k.mem (start_addr + 4 * i))]⟩)) k) := by
    rw [hrun, checkvm_loop_words end_addr hend _ fuel start_addr k hfuel
      (fun i hi => (hcount i).2 hi)
      (by
        have := (hcount ((end_addr + 4 - start_addr) / 4)).not.2 (by omega)
        omega)]
    rfl
  refine ⟨hres, hcount, ?_, ?_⟩
  · intro hlt
    rw [hres]
    have h0 : (end_addr + 4 - start_addr) / 4 = 0 := by omega
    rw [h0]
    simp [emit_nil]
  · intro r k1 hr
    rw [hres] at hr
    simp only [Option.some.injEq, Prod.mk.injEq] at hr
    exact ⟨hr.1.symm, by rw [← hr.2]; rfl⟩

/-- The command `checkvm 0x1002 0x100b` prints the words at 0x1002, 0x1006 and
0x100a. -/
theorem mon_checkvm_words_witness :
    mon_checkvm 5 3 ["checkvm".toList, "0x1002".toList, "0x100b".toList] 0
        (store 0x1006 0xdeadbeef bootKernel)
      = some ((0 : Int), emit [⟨"vaddr: %x, value: %x\n", [.num 0x1002, .num 0]⟩,
          ⟨"vaddr: %x, value: %x\n", [.num 0x1006, .num 0xdeadbeef]⟩,
          ⟨"vaddr: %x, value: %x\n", [.num 0x100a, .num 0]⟩]
          (store 0x1006 0xdeadbeef bootKernel)) :=
  (mon_checkvm_words 5 "checkvm".toList "0x1002".toList "0x100b".toList 0
    (store 0x1006 0xdeadbeef bootKernel) 0x1002 0x100b rfl rfl (by decide) (by decide)).1

/-! ## The start address of the range operations -/

theorem mon_showmappings_parsed (pgdir_walk : Nat → Bool → Option Nat) (fuel : Nat)
    (name a1 a2 : CStr) (tf : Trapframe) (k : Kernel) (start_addr end_addr : Nat)
    (h1 : read_addr a1 k = (start_addr, true, k))
    (h2 : read_addr a2 k = (end_addr, true, k)) :
    mon_showmappings pgdir_walk fuel 3 [name, a1, a2] tf k
      = if start_addr > end_addr then some (0, k)
        else (showmappings_loop pgdir_walk fuel (start_addr &&& 0xFFFFF000) end_addr k).map
          (fun k3 => (0, k3)) := by
  simp [mon_showmappings, h1, h2]

theorem showmappings_steps_succ (pgdir_walk : Nat → Bool → Option Nat) (n s e : Nat)
    (k : Kernel) (hle : s ≤ e) :
    ∃ line, showmappings_steps pgdir_walk (n + 1) s e k
        = showmappings_steps pgdir_walk n ((s + PGSIZE) % 2 ^ 32) e (emit [line] k) ∧
      lineAddress line = some s := by
  rw [showmappings_steps, if_pos hle]
  cases pgdir_walk s false with
  | none => exact ⟨_, rfl, rfl⟩
  | some pte => exact ⟨_, rfl, rfl⟩

theorem showmappings_steps_emits (pgdir_walk : Nat → Bool → Option Nat) (e : Nat) (n : Nat) :
    ∀ (s : Nat) (k : Kernel), ∃ lines, showmappings_steps pgdir_walk n s e k = emit lines k ∧
      (s ≤ e → 0 < n → (visited lines).head? = some s) := by
  induction n with
  | zero => intro s k; exact ⟨[], (emit_nil k).symm, fun _ h => absurd h (by omega)⟩
  | succ n ih =>
    intro s k
    by_cases hle : s ≤ e
    · obtain ⟨line, hstep, ha⟩ := showmappings_steps_succ pgdir_walk n s e k hle
      obtain ⟨lines, h1, _⟩ := ih ((s + PGSIZE) % 2 ^ 32) (emit [line] k)
      refine ⟨line :: lines, ?_, ?_⟩
      · rw [hstep, h1, emit_emit]; rfl
      · intro _ _
        simp [visited, List.filterMap_cons, ha]
    · rw [showmappings_steps, if_neg hle]
      exact ⟨[], (emit_nil k).symm, fun h => absurd h hle⟩

theorem showmappings_steps_reaches (pgdir_walk : Nat → Bool → Option Nat) (e : Nat)
    (he : e < 2 ^ 32) (m : Nat) :
    ∀ (s : Nat) (k : Kernel), s + m * 4096 ≤ e →
      ∃ lines, showmappings_steps pgdir_walk (m + 1) s e k = emit lines k ∧
        (s + m * 4096) ∈ visited lines := by
  induction m with
  | zero =>
    intro s k hle
    obtain ⟨lines, h1, h2⟩ := showmappings_steps_emits pgdir_walk e 1 s k
    refine ⟨lines, h1, ?_⟩
    have := h2 (by omega) (by omega)
    simp only [Nat.zero_mul, Nat.add_zero]
    exact List.mem_of_mem_head? this
  | succ m ih =>
    intro s k hle
    obtain ⟨line, hstep, ha⟩ := showmappings_steps_succ pgdir_walk (m + 1) s e k (by omega)
    have hwrap : (s + PGSIZE) % 2 ^ 32 = s + 4096 := by
      simp only [PGSIZE]
      apply Nat.mod_eq_of_lt
      omega
    rw [hwrap] at hstep
    obtain ⟨lines, h1, h2⟩ := ih (s + 4096) (emit [line] k) (by omega)
    refine ⟨line :: lines, ?_, ?_⟩
    · rw [hstep, h1, emit_emit]; rfl
    · have e1 : s + (m + 1) * 4096 = s + 4096 + m * 4096 := by omega
      rw [e1]
      unfold visited at h2 ⊢
      rw [List.filterMap_cons, ha]
      exact List.mem_cons_of_mem _ h2

theorem showmappings_steps_of_loop (pgdir_walk : Nat → Bool → Option Nat) (e : Nat) (n : Nat) :
    ∀ (s : Nat) (k k1 : Kernel), showmappings_loop pgdir_walk n s e k = some k1 →
      showmappings_steps pgdir_walk n s e k = k1 := by
  induction n with
  | zero => intro s k k1 h; simp [showmappings_loop] at h
  | succ n ih =>
    intro s k k1 h
    rw [showmappings_loop] at h
    rw [showmappings_steps]
    split_ifs at h ⊢
    · exact ih _ _ _ h
    · exact Option.some.inj h

theorem checkvm_steps_emits (e : Nat) (n : Nat) :
    ∀ (s : Nat) (k : Kernel), ∃ lines, checkvm_steps n s e k = emit lines k ∧
      (s ≤ e → 0 < n → (visited lines).head? = some s) := by
  induction n with
  | zero => intro s k; exact ⟨[], (emit_nil k).symm, fun _ h => absurd h (by omega)⟩
  | succ n ih =>
    intro s k
    rw [checkvm_steps]
    by_cases hle : s ≤ e
    · rw [if_pos hle, cprintf_eq_emit]
      obtain ⟨lines, h1, _⟩ := ih ((s + 4) % 2 ^ 32)
        (emit [⟨"vaddr: %x, value: %x\n", [.num s, .num (k.mem s)]⟩] k)
      refine ⟨⟨"vaddr: %x, value: %x\n", [.num s, .num (k.mem s)]⟩ :: lines, ?_, ?_⟩
      · rw [h1, emit_emit]; rfl
      · intro _ _
        rfl
    · rw [if_neg hle]
      exact ⟨[], (emit_nil k).symm, fun h => absurd h hle⟩

theorem checkvm_steps_of_loop (e : Nat) (n : Nat) :
    ∀ (s : Nat) (k k1 : Kernel), checkvm_loop n s e k = some k1 →
      checkvm_steps n s e k = k1 := by
  induction n with
  | zero => intro s k k1 h; simp [checkvm_loop] at h
  | succ n ih =>
    intro s k k1 h
    rw [checkvm_loop] at h
    rw [checkvm_steps]
    split_ifs at h ⊢
    · exact ih _ _ _ h
    · exact Option.some.inj h

theorem mon_showmappings_steps_parsed (pgdir_walk : Nat → Bool → Option Nat) (n : Nat)
    (name a1 a2 : CStr) (tf : Trapframe) (k : Kernel) (start_addr end_addr : Nat)
    (h1 : read_addr a1 k = (start_addr, true, k))
    (h2 : read_addr a2 k = (end_addr, true, k)) (hle : start_addr ≤ end_addr) :
    mon_showmappings_steps pgdir_walk n 3 [name, a1, a2] tf k
      = showmappings_steps pgdir_walk n (start_addr &&& 0xFFFFF000) end_addr k := by
  have : ¬ end_addr < start_addr := by omega
  simp [mon_showmappings_steps, h1, h2, this]

theorem mon_checkvm_steps_parsed (n : Nat)
    (name a1 a2 : CStr) (tf : Trapframe) (k : Kernel) (start_addr end_addr : Nat)
    (h1 : read_addr a1 k = (start_addr, true, k))
    (h2 : read_addr a2 k = (end_addr, true, k)) :
    mon_checkvm_steps n 3 [name, a1, a2] tf k = checkvm_steps n start_addr end_addr k := by
  simp [mon_checkvm_steps, h1, h2]

theorem mon_checkvm_parsed (fuel : Nat)
    (name a1 a2 : CStr) (tf : Trapframe) (k : Kernel) (start_addr end_addr : Nat)
    (h1 : read_addr a1 k = (start_addr, true, k))
    (h2 : read_addr a2 k = (end_addr, true, k)) :
    mon_checkvm fuel 3 [name, a1, a2] tf k
      = (checkvm_loop fuel start_addr end_addr k).map (fun k3 => ((0 : Int), k3)) := by
  simp [mon_checkvm, h1, h2]

/-- C14 fails on the code: the first address `checkvm 0x1004 0x1008` visits is not
`0x1004 & ~0xFFF`, and `checkvm 0x1ffe 0x2001` visits no address of the page
that contains 0x2001. -/
theorem checkvm_start_not_normalized_counterexample :
    ¬ ((mon_checkvm 4 3 ["checkvm".toList, "0x1004".toList, "0x1008".toList] 0 bootKernel).map
        (fun r => (visited r.2.out).head?) = some (some (0x1004 &&& 0xFFFFF000))) ∧
    ¬ ((mon_checkvm 4 3 ["checkvm".toList, "0x1ffe".toList, "0x2001".toList] 0 bootKernel).map
        (fun r => ((visited r.2.out).map (fun a => a &&& 0xFFFFF000)).contains
          (0x2001 &&& 0xFFFFF000)) = some true) := by
  decide

/-- C14, amended: for `start <= end`, on every range of 32-bit addresses,
`mon_showmappings` normalizes its start address, the first address it visits
being `start & ~0xFFF`, and visits the page containing the end address;
`mon_checkvm` does not normalize, the first address it visits being `start`
itself. The visits are read off the run cut short after `n` tests of the loop
condition, which is the state the command returns whenever it returns. -/
theorem range_start_normalization (pgdir_walk : Nat → Bool → Option Nat)
    (name a1 a2 : CStr) (tf : Trapframe) (k : Kernel) (start_addr end_addr : Nat)
    (h1 : read_addr a1 k = (start_addr, true, k))
    (h2 : read_addr a2 k = (end_addr, true, k)) (hle : start_addr ≤ end_addr) :
    (∀ n, 0 < n → ∃ lines,
        mon_showmappings_steps pgdir_walk n 3 [name, a1, a2] tf k = emit lines k ∧
        (visited lines).head? = some (start_addr &&& 0xFFFFF000)) ∧
    (∃ n lines, mon_showmappings_steps pgdir_walk n 3 [name, a1, a2] tf k = emit lines k ∧
        (end_addr &&& 0xFFFFF000) ∈ visited lines) ∧
    (∀ n, 0 < n → ∃ lines, mon_checkvm_steps n 3 [name, a1, a2] tf k = emit lines k ∧
        (visited lines).head? = some start_addr) ∧
    (∀ fuel r k1, mon_showmappings pgdir_walk fuel 3 [name, a1, a2] tf k = some (r, k1) →
        mon_showmappings_steps pgdir_walk fuel 3 [name, a1, a2] tf k = k1) ∧
    (∀ fuel r k1, mon_checkvm fuel 3 [name, a1, a2] tf k = some (r, k1) →
        mon_checkvm_steps fuel 3 [name, a1, a2] tf k = k1) := by
  have hs : start_addr < 2 ^ 32 := by
    have := read_addr_lt a1 k
    rwa [h1] at this
  have he : end_addr < 2 ^ 32 := by
    have := read_addr_lt a2 k
    rwa [h2] at this
  have hmask := land_page_mask start_addr hs
  have hmask2 := land_page_mask end_addr he
  have hdiv : start_addr / 4096 ≤ end_addr / 4096 := Nat.div_le_div_right hle
  refine ⟨?_, ?_, ?_, ?_, ?_⟩
  · intro n hn
    rw [mon_showmappings_steps_parsed pgdir_walk n name a1 a2 tf k _ _ h1 h2 hle]
    obtain ⟨lines, hl, hv⟩ := showmappings_steps_emits pgdir_walk end_addr n
      (start_addr &&& 0xFFFFF000) k
    exact ⟨lines, hl, hv (by rw [hmask]; omega) hn⟩
  · refine ⟨end_addr / 4096 - start_addr / 4096 + 1, ?_⟩
    rw [mon_showmappings_steps_parsed pgdir_walk _ name a1 a2 tf k _ _ h1 h2 hle]
    obtain ⟨lines, hl, hv⟩ := showmappings_steps_reaches pgdir_walk end_addr he
      (end_addr / 4096 - start_addr / 4096) (start_addr &&& 0xFFFFF000) k
      (by rw [hmask]; omega)
    refine ⟨lines, hl, ?_⟩
    have e1 : (start_addr &&& 0xFFFFF000) + (end_addr / 4096 - start_addr / 4096) * 4096
        = end_addr &&& 0xFFFFF000 := by
      rw [hmask, hmask2]; omega
    rw [← e1]
    exact hv
  · intro n hn
    rw [mon_checkvm_steps_parsed n name a1 a2 tf k _ _ h1 h2]
    obtain ⟨lines, hl, hv⟩ := checkvm_steps_emits end_addr n start_addr k
    exact ⟨lines, hl, hv hle hn⟩
  · intro fuel r k1 h
    rw [mon_showmappings_parsed pgdir_walk fuel name a1 a2 tf k _ _ h1 h2,
      if_neg (by omega)] at h
    rw [mon_showmappings_steps_parsed pgdir_walk fuel name a1 a2 tf k _ _ h1 h2 hle]
    cases hl : showmappings_loop pgdir_walk fuel (start_addr &&& 0xFFFFF000) end_addr k with
    | none => rw [hl] at h; simp at h
    | some k2 =>
      rw [hl] at h
      simp only [Option.map_some', Option.some.injEq, Prod.mk.injEq] at h
      rw [← h.2]
      exact showmappings_steps_of_loop pgdir_walk end_addr fuel _ k k2 hl
  · intro fuel r k1 h
    rw [mon_checkvm_parsed fuel name a1 a2 tf k _ _ h1 h2] at h
    rw [mon_checkvm_steps_parsed fuel name a1 a2 tf k _ _ h1 h2]
    cases hl : checkvm_loop fuel start_addr end_addr k with
    | none => rw [hl] at h; simp at h
    | some k2 =>
      rw [hl] at h
      simp only [Option.map_some', Option.some.injEq, Prod.mk.injEq] at h
      rw [← h.2]
      exact checkvm_steps_of_loop end_addr fuel _ k k2 hl

/-- The range 0xffffe123 .. 0xfffff005, which ends in the last page, for
`showmappings`, and 0x1004 .. 0x1008 for `checkvm`. -/
theorem range_start_normalization_witness :
    (∃ lines, mon_showmappings_steps (fun _ _ => none) 1 3
          ["showmappings".toList, "0xffffe123".toList, "0xfffff005".toList] 0 bootKernel
          = emit lines bootKernel ∧
        (visited lines).head? = some (0xffffe123 &&& 0xFFFFF000)) ∧
    (∃ n lines, mon_showmappings_steps (fun _ _ => none) n 3
          ["showmappings".toList, "0xffffe123".toList, "0xfffff005".toList] 0 bootKernel
          = emit lines bootKernel ∧
        (0xfffff005 &&& 0xFFFFF000) ∈ visited lines) ∧
    (∃ lines, mon_checkvm_steps 1 3
          ["checkvm".toList, "0x1004".toList, "0x1008".toList] 0 bootKernel
          = emit lines bootKernel ∧
        (visited lines).head? = some 0x1004) :=
  ⟨(range_start_normalization (fun _ _ => none) "showmappings".toList "0xffffe123".toList
      "0xfffff005".toList 0 bootKernel 0xffffe123 0xfffff005 rfl rfl (by decide)).1 1
      (by decide),
   (range_start_normalization (fun _ _ => none) "showmappings".toList "0xffffe123".toList
      "0xfffff005".toList 0 bootKernel 0xffffe123 0xfffff005 rfl rfl (by decide)).2.1,
   (range_start_normalization (fun _ _ => none) "checkvm".toList "0x1004".toList
      "0x1008".toList 0 bootKernel 0x1004 0x1008 rfl rfl (by decide)).2.2.1 1 (by decide)⟩

/-! ## `mon_backtrace` -/

theorem word_at_congr (k1 k2 : Kernel) (h : k1.mem = k2.mem) (p i : Nat) :
    word_at k1 p i = word_at k2 p i := by
  simp [word_at, h]

theorem frameChain_congr (k1 k2 : Kernel) (h : k1.mem = k2.mem) (fs : List Nat) :
    ∀ ebp, frameChain k1 ebp fs = frameChain k2 ebp fs := by
  induction fs with
  | nil => intro ebp; rfl
  | cons f fs ih =>
    intro ebp
    simp only [frameChain, ih, word_at_congr k1 k2 h]

theorem frameReport_congr (debuginfo_eip : Nat → Option Eipdebuginfo) (k1 k2 : Kernel)
    (h : k1.mem = k2.mem) (f : Nat) :
    frameReport debuginfo_eip k1 f = frameReport debuginfo_eip k2 f := by
  simp only [frameReport, word_at_congr k1 k2 h]

theorem backtrace_loop_step (debuginfo_eip : Nat → Option Eipdebuginfo) (fuel ebp : Nat)
    (k : Kernel) (hne : ebp ≠ 0) :
    backtrace_loop debuginfo_eip (fuel + 1) ebp k
      = backtrace_loop debuginfo_eip fuel (word_at k ebp 0)
          (emit (frameReport debuginfo_eip k ebp) k) := by
  rw [backtrace_loop, if_pos hne]
  cases hd : debuginfo_eip (word_at k ebp 1) with
  | none => simp only [frameReport, hd, cprintf_eq_emit]; rfl
  | some info => simp only [frameReport, hd, cprintf_eq_emit, emit_emit]; rfl

theorem backtrace_loop_chain (debuginfo_eip : Nat → Option Eipdebuginfo) (fs : List Nat) :
    ∀ (fuel ebp : Nat) (k : Kernel), frameChain k ebp fs = true → fs.length < fuel →
    backtrace_loop debuginfo_eip fuel ebp k
      = some (emit (fs.flatMap (frameReport debuginfo_eip k)) k) := by
  induction fs with
  | nil =>
    intro fuel ebp k hc hf
    obtain ⟨fuel, rfl⟩ : ∃ f, fuel = f + 1 := ⟨fuel - 1, by omega⟩
    simp only [frameChain, decide_eq_true_eq] at hc
    subst hc
    simp [backtrace_loop, emit_nil]
  | cons f fs ih =>
    intro fuel ebp k hc hf
    obtain ⟨fuel, rfl⟩ : ∃ f, fuel = f + 1 := ⟨fuel - 1, by omega⟩
    simp only [frameChain, Bool.and_eq_true, decide_eq_true_eq] at hc
    obtain ⟨⟨rfl, hne⟩, hrest⟩ := hc
    simp only [List.length_cons] at hf
    have hmem : (emit (frameReport debuginfo_eip k ebp) k).mem = k.mem := rfl
    rw [backtrace_loop_step debuginfo_eip fuel ebp k hne,
      ih fuel _ _ (by rw [frameChain_congr _ k hmem]; exact hrest) (by omega)]
    have hfun : frameReport debuginfo_eip (emit (frameReport debuginfo_eip k ebp) k)
        = frameReport debuginfo_eip k :=
      funext (frameReport_congr debuginfo_eip _ k hmem)
    rw [hfun, emit_emit, List.flatMap_cons]

theorem sub32_eq_sub (a b : Nat) (hb : b ≤ a) (ha : a < 2 ^ 32) : sub32 a b = a - b := by
  unfold sub32
  rw [Nat.mod_eq_of_lt (by omega : b < 2 ^ 32)]
  have : a + 2 ^ 32 - b = (a - b) + 2 ^ 32 := by omega
  rw [this, Nat.add_mod_right]
  exact Nat.mod_eq_of_lt (by omega)

theorem frame_lines_count (debuginfo_eip : Nat → Option Eipdebuginfo) (k : Kernel)
    (fs : List Nat) :
    ((fs.flatMap (frameReport debuginfo_eip k)).filter
        (fun p => decide (p.fmt = "  ebp %08x  eip %08x  args %08x %08x %08x %08x %08x\n"))).length
      = fs.length := by
  induction fs with
  | nil => rfl
  | cons f fs ih =>
    have h1 : ((frameReport debuginfo_eip k f).filter
        (fun p => decide (p.fmt = "  ebp %08x  eip %08x  args %08x %08x %08x %08x %08x\n"))).length
          = 1 := by
      unfold frameReport
      cases debuginfo_eip (word_at k f 1) <;> simp [List.filter_cons]
    rw [List.flatMap_cons, List.filter_append, List.length_append, ih, List.length_cons, h1]
    omega

/-- C16: when the saved frame pointers from the initial frame pointer form the
chain `fs`, ending in the null pointer, `mon_backtrace`, given fuel for its
loop, returns 0 after printing for each frame of `fs`, in order, its frame
line (frame pointer, the word at `ebp+4`, the words at `ebp+8` .. `ebp+20`)
followed by its symbol line exactly when the resolver succeeds on the return
address; there are as many frame lines as frames, the offset printed is the
return address minus the function start, and the word `i` machine words above
a frame pointer `f` is the one stored at `f + 4 * i`. -/
theorem mon_backtrace_frames (debuginfo_eip : Nat → Option Eipdebuginfo) (read_ebp fuel : Nat)
    (argc : Nat) (argv : List CStr) (tf : Trapframe) (k : Kernel) (fs : List Nat)
    (hchain : frameChain k read_ebp fs = true) (hfuel : fs.length < fuel) :
    mon_backtrace debuginfo_eip read_ebp fuel argc argv tf k
        = some ((0 : Int), emit (fs.flatMap (frameReport debuginfo_eip k)) k)
      ∧ ((fs.flatMap (frameReport debuginfo_eip k)).filter
          (fun p => decide (p.fmt = "  ebp %08x  eip %08x  args %08x %08x %08x %08x %08x\n"))).length
          = fs.length
      ∧ (∀ eip fn_addr, fn_addr ≤ eip → eip < 2 ^ 32 → sub32 eip fn_addr = eip - fn_addr)
      ∧ ∀ f i, f + 4 * i < 2 ^ 32 → word_at k f i = k.mem (f + 4 * i) := by
  refine ⟨?_, frame_lines_count debuginfo_eip k fs, sub32_eq_sub, ?_⟩
  · rw [mon_backtrace, backtrace_loop_chain debuginfo_eip fs fuel read_ebp k hchain hfuel]
    rfl
  · intro f i h
    rw [word_at, Nat.mod_eq_of_lt h]

/-- A chain of three frames, of which the resolver knows the first return
address. -/
theorem mon_backtrace_frames_witness :
    mon_backtrace exampleResolver 0x100 4 1 ["backtrace".toList] 0 exampleStack
      = some ((0 : Int), emit
          [⟨"  ebp %08x  eip %08x  args %08x %08x %08x %08x %08x\n",
              [.num 0x100, .num 0xf0100040, .num 7, .num 0, .num 0, .num 0]⟩,
            ⟨"\t%s:%u: %.*s+%u\n",
              [.str "kern/init.c".toList, .num 24, .num 9, .str "i386_init".toList, .num 0x40]⟩,
            ⟨"  ebp %08x  eip %08x  args %08x %08x %08x %08x %08x\n",
              [.num 0x200, .num 0xf0100080, .num 0, .num 0, .num 0, .num 0]⟩,
            ⟨"  ebp %08x  eip %08x  args %08x %08x %08x %08x %08x\n",
              [.num 0x300, .num 0xf01000c0, .num 0, .num 0, .num 0, .num 0]⟩]
          exampleStack) :=
  (mon_backtrace_frames exampleResolver 0x100 4 1 ["backtrace".toList] 0 exampleStack
    [0x100, 0x200, 0x300] (by decide) (by decide)).1

/-! ## `mon_help`, and `mon_showmappings` on the last page -/

theorem help_loop_eq (cmds : List Command) (k : Kernel) :
    help_loop cmds k
      = emit (cmds.map (fun c => ⟨"%s - %s\n", [.str c.name, .str c.desc]⟩)) k := by
  induction cmds generalizing k with
  | nil => simp [help_loop, emit_nil]
  | cons c cs ih =>
    rw [help_loop, ih, cprintf_eq_emit, emit_emit]
    rfl

/-- C17: for every argument vector `mon_help` returns 0 after printing one
`name - description` line per entry of `commands`, in the order of the table:
backtrace, checkvm, help, kerninfo, showmappings, setperm, each name once. -/
theorem mon_help_lists_commands (argc : Nat) (argv : List CStr) (tf : Trapframe) (k : Kernel) :
    mon_help argc argv tf k
        = some (0, emit (commands.map (fun c => ⟨"%s - %s\n", [.str c.name, .str c.desc]⟩)) k)
      ∧ commands.map Command.name
          = ["backtrace".toList, "checkvm".toList, "help".toList, "kerninfo".toList,
              "showmappings".toList, "setperm".toList]
      ∧ (commands.map Command.name).Nodup := by
  refine ⟨?_, rfl, commands_names_nodup⟩
  rw [mon_help, help_loop_eq]

theorem showmappings_loop_diverges (pgdir_walk : Nat → Bool → Option Nat) (e : Nat)
    (he : 0xFFFFF000 ≤ e) (fuel : Nat) : ∀ (s : Nat) (k : Kernel), s < 2 ^ 32 → s % 4096 = 0 →
    showmappings_loop pgdir_walk fuel s e k = none := by
  induction fuel with
  | zero => intro s k _ _; rfl
  | succ fuel ih =>
    intro s k hs hal
    rw [showmappings_loop, if_pos (by omega)]
    apply ih
    · exact Nat.mod_lt _ (by norm_num)
    · simp only [PGSIZE]; omega

theorem mon_showmappings_diverges (pgdir_walk : Nat → Bool → Option Nat) (fuel : Nat)
    (name a1 a2 : CStr) (tf : Trapframe) (k : Kernel) (start_addr end_addr : Nat)
    (h1 : read_addr a1 k = (start_addr, true, k))
    (h2 : read_addr a2 k = (end_addr, true, k))
    (hle : start_addr ≤ end_addr) (hend : 0xFFFFF000 ≤ end_addr) :
    mon_showmappings pgdir_walk fuel 3 [name, a1, a2] tf k = none := by
  have hs : start_addr < 2 ^ 32 := by
    have := read_addr_lt a1 k
    rwa [h1] at this
  rw [mon_showmappings_parsed pgdir_walk fuel name a1 a2 tf k _ _ h1 h2, if_neg (by omega),
    showmappings_loop_diverges pgdir_walk end_addr hend fuel _ k]
  · rfl
  · rw [land_page_mask _ hs]; omega
  · rw [land_page_mask _ hs]; omega

/-- C18 fails on the code: on `showmappings 0xfffff000 0xffffffff` the loop of
`mon_showmappings` does not end, whatever fuel it is given: `start_addr` wraps
around to 0 after the last page and is `<= end_addr` again. -/
theorem mon_showmappings_last_page_diverges (pgdir_walk : Nat → Bool → Option Nat)
    (fuel : Nat) (tf : Trapframe) (k : Kernel) :
    mon_showmappings pgdir_walk fuel 3
      ["showmappings".toList, "0xfffff000".toList, "0xffffffff".toList] tf k = none :=
  mon_showmappings_diverges pgdir_walk fuel _ _ _ tf k 0xfffff000 0xffffffff rfl rfl
    (by norm_num) (by norm_num)

/-! ## The value returned by `runcmd` and the loop of `monitor` -/

theorem map_zero_result (o : Option Kernel) (r : Int) (k1 : Kernel)
    (h : o.map (fun k3 => ((0 : Int), k3)) = some (r, k1)) : r = 0 := by
  cases o with
  | none => simp at h
  | some k => simp only [Option.map_some', Option.some.injEq, Prod.mk.injEq] at h; exact h.1.symm

theorem mon_showmappings_zero (pgdir_walk : Nat → Bool → Option Nat) (fuel argc : Nat)
    (argv : List CStr) (tf : Trapframe) (k : Kernel) (r : Int) (k1 : Kernel)
    (h : mon_showmappings pgdir_walk fuel argc argv tf k = some (r, k1)) : r = 0 := by
  unfold mon_showmappings at h
  repeat' split at h
  all_goals first
    | exact map_zero_result _ r k1 h
    | (simp only [Option.some.injEq, Prod.mk.injEq] at h; exact h.1.symm)

theorem mon_checkvm_zero (fuel argc : Nat)
    (argv : List CStr) (tf : Trapframe) (k : Kernel) (r : Int) (k1 : Kernel)
    (h : mon_checkvm fuel argc argv tf k = some (r, k1)) : r = 0 := by
  unfold mon_checkvm at h
  repeat' split at h
  all_goals first
    | exact map_zero_result _ r k1 h
    | (simp only [Option.some.injEq, Prod.mk.injEq] at h; exact h.1.symm)

theorem mon_setperm_zero (pgdir_walk : Nat → Kernel → Nat × Kernel) (argc : Nat)
    (argv : List CStr) (tf : Trapframe) (k : Kernel) (r : Int) (k1 : Kernel)
    (h : mon_setperm pgdir_walk argc argv tf k = some (r, k1)) : r = 0 := by
  unfold mon_setperm at h
  repeat' split at h
  all_goals first
    | exact map_zero_result _ r k1 h
    | (simp only [Option.some.injEq, Prod.mk.injEq] at h; exact h.1.symm)

theorem call_command_zero (pf : Platform) (fuel : Nat) (h : Handler) (argc : Nat)
    (argv : List CStr) (tf : Trapframe) (k : Kernel) (r : Int) (k1 : Kernel)
    (hc : call_command pf fuel h argc argv tf k = some (r, k1)) : r = 0 := by
  cases h with
  | mon_backtrace => exact map_zero_result _ r k1 hc
  | mon_checkvm => exact mon_checkvm_zero fuel argc argv tf k r k1 hc
  | mon_help =>
    simp only [call_command, mon_help, Option.some.injEq, Prod.mk.injEq] at hc
    exact hc.1.symm
  | mon_kerninfo =>
    simp only [call_command, mon_kerninfo, Option.some.injEq, Prod.mk.injEq] at hc
    exact hc.1.symm
  | mon_showmappings => exact mon_showmappings_zero pf.walk_lookup fuel argc argv tf k r k1 hc
  | mon_setperm => exact mon_setperm_zero pf.walk_create argc argv tf k r k1 hc

theorem runcmd_lookup_cases
    (invoke : Handler → Nat → List CStr → Trapframe → Kernel → Option (Int × Kernel))
    (argc : Nat) (argv : List CStr) (tf : Trapframe) (k : Kernel) :
    ∀ cmds : List Command,
      runcmd_lookup invoke argc argv tf k cmds
          = some (0, cprintf "Unknown command '%s'\n" [.str (argv.headD [])] k) ∨
        ∃ cmd ∈ cmds, argv.headD [] = cmd.name ∧
          runcmd_lookup invoke argc argv tf k cmds = invoke cmd.func argc argv tf k := by
  intro cmds
  induction cmds with
  | nil => left; rfl
  | cons c cs ih =>
    rw [runcmd_lookup]
    split_ifs with hc
    · right
      refine ⟨c, List.mem_cons_self _ _, ?_, rfl⟩
      simpa only [strcmp_eq, decide_eq_true_eq] using hc
    · rcases ih with h | ⟨cmd, hm, hn, h⟩
      · left; exact h
      · right; exact ⟨cmd, List.mem_cons_of_mem _ hm, hn, h⟩

theorem runcmd_zero (pf : Platform) (fuel : Nat) (line : CStr) (tf : Trapframe) (k : Kernel)
    (r : Int) (k1 : Kernel) (h : runcmd (call_command pf fuel) line tf k = some (r, k1)) :
    r = 0 := by
  unfold runcmd at h
  split at h
  · simp at h
  · simp only [Option.some.injEq, Prod.mk.injEq] at h; exact h.1.symm
  · simp only at h
    split_ifs at h
    · simp only [Option.some.injEq, Prod.mk.injEq] at h; exact h.1.symm
    · rcases runcmd_lookup_cases (call_command pf fuel) _ _ tf k commands
        with hl | ⟨cmd, _, _, hl⟩
      · rw [hl] at h
        simp only [Option.some.injEq, Prod.mk.injEq] at h; exact h.1.symm
      · rw [hl] at h
        exact call_command_zero pf fuel _ _ _ tf k r k1 h

theorem monitor_loop_never_exits (pf : Platform) (fuel : Nat) (tf : Trapframe) :
    ∀ (lines : List (Option CStr)) (k k1 : Kernel),
      monitor_loop (call_command pf fuel) tf lines k ≠ .exited k1 := by
  intro lines
  induction lines with
  | nil => intro k k1 h; simp [monitor_loop] at h
  | cons l ls ih =>
    intro k k1
    cases l with
    | none => rw [monitor_loop]; exact ih k k1
    | some buf =>
      rw [monitor_loop]
      cases hr : runcmd (call_command pf fuel) buf tf k with
      | none => simp
      | some p =>
        obtain ⟨r, k2⟩ := p
        have := runcmd_zero pf fuel buf tf k r k2 hr
        subst this
        simp only [lt_self_iff_false, if_false]
        exact ih k2 k1

/-- C19: on a line (a C string, so without NUL) for which the command its first
token names, if any, returns, `runcmd` returns 0; every command of the table returns 0 whenever it
returns, so does `runcmd` on every line, and `monitor` never takes its
`break`, whatever lines are typed. -/
theorem runcmd_never_negative (pf : Platform) (fuel : Nat) (line : CStr) (tf : Trapframe)
    (k : Kernel) (hnul : NUL ∉ line)
    (hterm : ∀ cmd ∈ commands, (whitespaceTokens line).head? = some cmd.name →
      (call_command pf fuel cmd.func (whitespaceTokens line).length (whitespaceTokens line)
        tf k).isSome = true) :
    (∃ k1, runcmd (call_command pf fuel) line tf k = some (0, k1)) ∧
    (∀ h argc argv tf0 k0 r k1,
        call_command pf fuel h argc argv tf0 k0 = some (r, k1) → r = 0) ∧
    (∀ buf tf0 k0 r k1, runcmd (call_command pf fuel) buf tf0 k0 = some (r, k1) → r = 0) ∧
    (∀ lines tf0 k0 k1, monitor (call_command pf fuel) tf0 lines k0 ≠ .exited k1) := by
  refine ⟨?_, call_command_zero pf fuel, runcmd_zero pf fuel, ?_⟩
  · have hsome : ∃ p, runcmd (call_command pf fuel) line tf k = some p := by
      by_cases hlim : (whitespaceTokens line).length ≤ MAXARGS - 1
      · rw [runcmd_eq_lookup _ line tf k hnul hlim]
        split_ifs with h0
        · exact ⟨_, rfl⟩
        · rcases runcmd_lookup_cases (call_command pf fuel) (whitespaceTokens line).length
            (whitespaceTokens line) tf k commands with hl | ⟨cmd, hm, hn, hl⟩
          · exact ⟨_, hl⟩
          · rw [hl]
            apply Option.isSome_iff_exists.1 (hterm cmd hm _)
            cases hw : whitespaceTokens line with
            | nil => rw [hw] at h0; simp at h0
            | cons t ts => rw [hw] at hn; simpa using hn
      · unfold runcmd
        rw [runcmd_parse_too_many line hnul (by omega)]
        exact ⟨_, rfl⟩
    obtain ⟨⟨r, k1⟩, hp⟩ := hsome
    have := runcmd_zero pf fuel line tf k r k1 hp
    subst this
    exact ⟨k1, hp⟩
  · intro lines tf0 k0 k1
    exact monitor_loop_never_exits pf fuel tf0 lines _ k1

/-- The line `help` makes `runcmd` return 0. -/
theorem runcmd_never_negative_witness :
    ∃ k1, runcmd (call_command examplePlatform 3) "help".toList 0 bootKernel = some (0, k1) :=
  (runcmd_never_negative examplePlatform 3 "help".toList 0 bootKernel (by decide)
    (by decide)).1

end JOS
